import Mathlib

/-!
Verification of the Discord bulk-job service (`discord_bulk_service.py`) of the
ytuploadweb repository.

The development shallowly embeds the parts of `DiscordBulkJobService` that the
specification talks about:

* the attachment classification of `_extract_attachments` (wizard mode,
  exactly 4 attachments of one type, lists reversed before returning);
* the message-link normalization and parsing step of `_extract_attachments`;
* the job state machine: `create_wizard_bulk_job`, `_process_wizard_job`,
  `_process_image_set`, `cancel_job`, with per-item outcomes (webhook success,
  webhook failure, extraction failure, unexpected per-item error) and the
  cancellation / shutdown interleavings made explicit as an environment.

Machine strings are embedded as `List Char`; Python `str.replace`,
`str.startswith`, `str.endswith`, `str.strip` and `str.split` are embedded as
executable functions on `List Char` with the same semantics (for the non-empty
patterns the code uses).
-/

set_option maxRecDepth 4000

/-! ## Attachments and extension classification (lines 357-387) -/

/-- An attachment as delivered by the messaging API: `{filename, url}`. -/
structure Attachment where
  filename : List Char
  url : String
deriving DecidableEq, Repr

/-- `audio_exts = {'.mp3', '.wav', '.m4a', '.aac', '.mp4'}` (line 364). -/
def audio_exts : List (List Char) :=
  [['.', 'm', 'p', '3'], ['.', 'w', 'a', 'v'], ['.', 'm', '4', 'a'],
   ['.', 'a', 'a', 'c'], ['.', 'm', 'p', '4']]

/-- `image_exts = {'.jpg', '.jpeg', '.png', '.webp'}` (line 365). -/
def image_exts : List (List Char) :=
  [['.', 'j', 'p', 'g'], ['.', 'j', 'p', 'e', 'g'], ['.', 'p', 'n', 'g'],
   ['.', 'w', 'e', 'b', 'p']]

/-- Python `s.endswith(ext)`. -/
def endsWithExt (s ext : List Char) : Bool := ext.isSuffixOf s

/-- `any(a['filename'].lower().endswith(ext) for ext in audio_exts)` (line 367). -/
def is_audio_name (fn : List Char) : Bool :=
  audio_exts.any (fun e => endsWithExt (fn.map Char.toLower) e)

/-- `any(a['filename'].lower().endswith(ext) for ext in image_exts)` (line 368). -/
def is_image_name (fn : List Char) : Bool :=
  image_exts.any (fun e => endsWithExt (fn.map Char.toLower) e)

/-- The value returned by `_extract_attachments`: `{'images': ..., 'audios': ...}`. -/
structure Extracted where
  images : List String
  audios : List String
deriving DecidableEq, Repr

/-- The distinct failure modes of `_extract_attachments` (each a raised
`Exception` with a distinguishing message in the Python source). -/
inductive ExtractErr
  | invalidLink
  | fetchFailed
  | wrongCount (found : Nat)
  | wrongTypes (audios images : Nat)
deriving DecidableEq, Repr

/-- Lines 357-387 of `_extract_attachments` (wizard mode): exactly 4
attachments, partitioned by extension, required to be all-audio or all-image,
and both url lists reversed before returning. -/
def classify_attachments_wizard (attachments : List Attachment) :
    Except ExtractErr Extracted :=
  if attachments.length ≠ 4 then .error (.wrongCount attachments.length)
  else
    let audios_full := attachments.filter (fun a => is_audio_name a.filename)
    let images_full := attachments.filter (fun a => is_image_name a.filename)
    let audios := audios_full.map (fun a => a.url)
    let images := images_full.map (fun a => a.url)
    if (audios.length = 4 ∧ images.length = 0) ∨
       (images.length = 4 ∧ audios.length = 0) then
      .ok { images := images.reverse, audios := audios.reverse }
    else .error (.wrongTypes audios.length images.length)

/-- Modelled from the spec: the 8-attachment ("flat" job) variant of the
attachment extractor. The source tree only contains the wizard-mode extractor
(`_extract_attachments`, "Wizard mode: 4 attachments"); the flat-mode
extractor the spec describes in section 4.1 is not under src/. Following the
spec's words: it "expects exactly 8 attachments that decompose into exactly
4 audio + 4 image files by extension; anything else fails with
`AttachmentCountMismatch`", with the same extension sets, and the same
reversal of both lists before returning. -/
def classify_attachments_flat8 (attachments : List Attachment) :
    Except ExtractErr Extracted :=
  if attachments.length ≠ 8 then .error (.wrongCount attachments.length)
  else
    let audios_full := attachments.filter (fun a => is_audio_name a.filename)
    let images_full := attachments.filter (fun a => is_image_name a.filename)
    let audios := audios_full.map (fun a => a.url)
    let images := images_full.map (fun a => a.url)
    if audios.length = 4 ∧ images.length = 4 then
      .ok { images := images.reverse, audios := audios.reverse }
    else .error (.wrongTypes audios.length images.length)

/-! ### Helper lemmas about the classification -/

theorem suffix_of_isSuffixOf {l1 l2 : List Char} (h : l1.isSuffixOf l2 = true) :
    l1 <:+ l2 :=
  List.isSuffixOf_iff_suffix.mp h

theorem suffix_total {l1 l2 l3 : List Char} (h1 : l1 <:+ l3) (h2 : l2 <:+ l3) :
    l1 <:+ l2 ∨ l2 <:+ l1 := by
  rw [← List.reverse_prefix] at h1 h2
  rcases List.prefix_or_prefix_of_prefix h1 h2 with h | h
  · exact Or.inl ( List.reverse_prefix.mp h)
  · exact Or.inr ( List.reverse_prefix.mp h)

/-- No filename classifies as both audio and image: the extension sets are
disjoint even up to the suffix matching the code uses. -/
theorem audio_image_not_both (fn : List Char) :
    ¬ (is_audio_name fn = true ∧ is_image_name fn = true) := by
  rintro ⟨ha, hi⟩
  rw [is_audio_name, List.any_eq_true] at ha
  rw [is_image_name, List.any_eq_true] at hi
  obtain ⟨e1, he1, hs1⟩ := ha
  obtain ⟨e2, he2, hs2⟩ := hi
  have t1 : e1 <:+ (fn.map Char.toLower) := suffix_of_isSuffixOf hs1
  have t2 : e2 <:+ (fn.map Char.toLower) := suffix_of_isSuffixOf hs2
  have tt := suffix_total t1 t2
  simp only [audio_exts, List.mem_cons, List.not_mem_nil, or_false] at he1
  simp only [image_exts, List.mem_cons, List.not_mem_nil, or_false] at he2
  rcases he1 with rfl | rfl | rfl | rfl | rfl <;>
    rcases he2 with rfl | rfl | rfl | rfl <;> revert tt <;> decide

theorem filter_all_of_length_eq {α} (p : α → Bool) (l : List α)
    (h : (l.filter p).length = l.length) : l.filter p = l :=
  (List.filter_sublist l).eq_of_length h

theorem classify_wizard_all_audio (atts : List Attachment) (h4 : atts.length = 4)
    (ha : ∀ a ∈ atts, is_audio_name a.filename = true) :
    classify_attachments_wizard atts =
      .ok ⟨[], (atts.map (fun a => a.url)).reverse⟩ := by
  have hfa : atts.filter (fun a => is_audio_name a.filename) = atts :=
    List.filter_eq_self.mpr ha
  have hfi : atts.filter (fun a => is_image_name a.filename) = [] := by
    rw [List.filter_eq_nil_iff]
    intro a hmem hcontra
    exact audio_image_not_both a.filename ⟨ha a hmem, hcontra⟩
  unfold classify_attachments_wizard
  rw [if_neg (by omega)]
  simp only [hfa, hfi, List.map_nil, List.length_map, List.length_nil, h4]
  rw [if_pos (by simp)]
  simp

theorem classify_wizard_all_image (atts : List Attachment) (h4 : atts.length = 4)
    (hi : ∀ a ∈ atts, is_image_name a.filename = true) :
    classify_attachments_wizard atts =
      .ok ⟨(atts.map (fun a => a.url)).reverse, []⟩ := by
  have hfi : atts.filter (fun a => is_image_name a.filename) = atts :=
    List.filter_eq_self.mpr hi
  have hfa : atts.filter (fun a => is_audio_name a.filename) = [] := by
    rw [List.filter_eq_nil_iff]
    intro a hmem hcontra
    exact audio_image_not_both a.filename ⟨hcontra, hi a hmem⟩
  unfold classify_attachments_wizard
  rw [if_neg (by omega)]
  simp only [hfa, hfi, List.map_nil, List.length_map, List.length_nil, h4]
  rw [if_pos (by simp)]
  simp

theorem classify_wizard_ok_inv (atts : List Attachment) (r : Extracted)
    (h : classify_attachments_wizard atts = .ok r) :
    atts.length = 4 ∧
      ((∀ a ∈ atts, is_audio_name a.filename = true) ∨
       (∀ a ∈ atts, is_image_name a.filename = true)) := by
  unfold classify_attachments_wizard at h
  by_cases h4 : atts.length = 4
  · refine ⟨h4, ?_⟩
    rw [if_neg (by omega)] at h
    simp only [List.length_map] at h
    split at h
    · rename_i hcond
      rcases hcond with ⟨ha4, _⟩ | ⟨hi4, _⟩
      · left
        have := filter_all_of_length_eq (fun a => is_audio_name a.filename) atts
          (by rw [ha4, h4])
        exact List.filter_eq_self.mp this
      · right
        have := filter_all_of_length_eq (fun a => is_image_name a.filename) atts
          (by rw [hi4, h4])
        exact List.filter_eq_self.mp this
    · exact absurd h (by simp)
  · rw [if_pos h4] at h
    exact absurd h (by simp)

/-- C6: in 4-attachment (wizard) mode, extraction succeeds exactly when the
fetched message has exactly 4 attachments that are all audio files or all
image files by filename extension; any other count or any mixed or
unclassifiable set fails with an attachment-count error; and the returned
`images` and `audios` lists are each reversed relative to the order the
external API returned the attachments. -/
theorem wizard_mode_extraction_correct (atts : List Attachment) :
    ((∃ r, classify_attachments_wizard atts = .ok r) ↔
      (atts.length = 4 ∧
        ((∀ a ∈ atts, is_audio_name a.filename = true) ∨
         (∀ a ∈ atts, is_image_name a.filename = true)))) ∧
    (atts.length = 4 → (∀ a ∈ atts, is_audio_name a.filename = true) →
      classify_attachments_wizard atts =
        .ok ⟨[], (atts.map (fun a => a.url)).reverse⟩) ∧
    (atts.length = 4 → (∀ a ∈ atts, is_image_name a.filename = true) →
      classify_attachments_wizard atts =
        .ok ⟨(atts.map (fun a => a.url)).reverse, []⟩) := by
  refine ⟨⟨fun ⟨r, hr⟩ => classify_wizard_ok_inv atts r hr, ?_⟩,
    classify_wizard_all_audio atts, classify_wizard_all_image atts⟩
  rintro ⟨h4, ha | hi⟩
  · exact ⟨_, classify_wizard_all_audio atts h4 ha⟩
  · exact ⟨_, classify_wizard_all_image atts h4 hi⟩

/-- Witness for C6: a message with 4 audio attachments (fetch order
a1.mp3, a2.mp3, a3.mp3, a4.mp3) extracts successfully with the audio urls
reversed and no images. -/
theorem wizard_mode_extraction_correct_witness :
    classify_attachments_wizard
      [⟨['a', '1', '.', 'm', 'p', '3'], "u1"⟩, ⟨['a', '2', '.', 'm', 'p', '3'], "u2"⟩,
       ⟨['a', '3', '.', 'm', 'p', '3'], "u3"⟩, ⟨['a', '4', '.', 'm', 'p', '3'], "u4"⟩] =
      .ok ⟨[], ["u4", "u3", "u2", "u1"]⟩ :=
  (wizard_mode_extraction_correct _).2.1 (by decide) (by decide)

/-- C10: a filename ending in `.mp4` lands in the audio bucket; the audio and
image extension sets are the ones of lines 364-365, matched case-insensitively
on the lowercased filename; an attachment matching neither set falls into no
bucket, so a message of exactly 4 attachments containing such a file fails
with the same-type count error (not the count error) instead of being
accepted. -/
theorem mp4_is_audio_and_unclassified_rejected :
    (∀ fn : List Char,
      endsWithExt (fn.map Char.toLower) ['.', 'm', 'p', '4'] = true →
      is_audio_name fn = true) ∧
    (∀ fn, is_audio_name fn = true ↔
      ∃ e ∈ audio_exts, endsWithExt (fn.map Char.toLower) e = true) ∧
    (∀ fn, is_image_name fn = true ↔
      ∃ e ∈ image_exts, endsWithExt (fn.map Char.toLower) e = true) ∧
    (∀ atts : List Attachment, atts.length = 4 →
      (∃ a ∈ atts, is_audio_name a.filename = false ∧ is_image_name a.filename = false) →
      ∃ na ni, classify_attachments_wizard atts = .error (.wrongTypes na ni)) := by
  refine ⟨?_, ?_, ?_, ?_⟩
  · intro fn h
    rw [is_audio_name, List.any_eq_true]
    exact ⟨['.', 'm', 'p', '4'], by simp [audio_exts], h⟩
  · intro fn
    rw [is_audio_name, List.any_eq_true]
  · intro fn
    rw [is_image_name, List.any_eq_true]
  · intro atts h4 ⟨a, hmem, hna, hni⟩
    have hlta : (atts.filter (fun a => is_audio_name a.filename)).length < 4 := by
      rw [← h4]
      exact List.length_filter_lt_length_iff_exists.mpr ⟨a, hmem, by simp [hna]⟩
    have hlti : (atts.filter (fun a => is_image_name a.filename)).length < 4 := by
      rw [← h4]
      exact List.length_filter_lt_length_iff_exists.mpr ⟨a, hmem, by simp [hni]⟩
    have heq : classify_attachments_wizard atts =
        .error (.wrongTypes (atts.filter (fun a => is_audio_name a.filename)).length
                            (atts.filter (fun a => is_image_name a.filename)).length) := by
      unfold classify_attachments_wizard
      rw [if_neg (by omega)]
      simp only [List.length_map]
      rw [if_neg (by omega)]
    exact ⟨_, _, heq⟩

/-- Witness for C10: `VIDEO.MP4` classifies as audio (case-insensitively), and
a 4-attachment message holding three pngs and one `.txt` file is rejected
with the same-type error `wrongTypes 0 3`. -/
theorem mp4_is_audio_and_unclassified_rejected_witness :
    is_audio_name ['V', 'I', 'D', 'E', 'O', '.', 'M', 'P', '4'] = true ∧
    (∃ na ni, classify_attachments_wizard
      [⟨['i', '.', 'p', 'n', 'g'], "u1"⟩, ⟨['j', '.', 'p', 'n', 'g'], "u2"⟩,
       ⟨['k', '.', 'p', 'n', 'g'], "u3"⟩, ⟨['n', '.', 't', 'x', 't'], "u4"⟩] =
      .error (.wrongTypes na ni)) :=
  ⟨mp4_is_audio_and_unclassified_rejected.1 _ (by decide),
   mp4_is_audio_and_unclassified_rejected.2.2.2 _ (by decide)
     ⟨⟨['n', '.', 't', 'x', 't'], "u4"⟩, by decide, by decide, by decide⟩⟩

theorem classify_flat8_ok (atts : List Attachment) (h8 : atts.length = 8)
    (ha : (atts.filter (fun a => is_audio_name a.filename)).length = 4)
    (hi : (atts.filter (fun a => is_image_name a.filename)).length = 4) :
    classify_attachments_flat8 atts =
      .ok ⟨((atts.filter (fun a => is_image_name a.filename)).map (fun a => a.url)).reverse,
           ((atts.filter (fun a => is_audio_name a.filename)).map (fun a => a.url)).reverse⟩ := by
  unfold classify_attachments_flat8
  rw [if_neg (by omega)]
  simp only [List.length_map]
  rw [if_pos ⟨ha, hi⟩]

/-- C4 (modelled from the spec, the flat-mode extractor being absent from
src/): in 8-attachment mode, extraction succeeds exactly on messages whose
attachment list has exactly 8 entries decomposing by filename extension into
exactly 4 audio and 4 image files; on success `images` and `audios` each have
length 4 and are each the reversal of the fetch-order sublists; any other
8-mode configuration fails with an attachment-count error. -/
theorem flat8_mode_extraction_correct (atts : List Attachment) :
    ((∃ r, classify_attachments_flat8 atts = .ok r) ↔
      (atts.length = 8 ∧
        (atts.filter (fun a => is_audio_name a.filename)).length = 4 ∧
        (atts.filter (fun a => is_image_name a.filename)).length = 4)) ∧
    (∀ r, classify_attachments_flat8 atts = .ok r →
      r.images.length = 4 ∧ r.audios.length = 4 ∧
      r.images = ((atts.filter (fun a => is_image_name a.filename)).map (fun a => a.url)).reverse ∧
      r.audios = ((atts.filter (fun a => is_audio_name a.filename)).map (fun a => a.url)).reverse) ∧
    (¬ (atts.length = 8 ∧
        (atts.filter (fun a => is_audio_name a.filename)).length = 4 ∧
        (atts.filter (fun a => is_image_name a.filename)).length = 4) →
      ∃ e, classify_attachments_flat8 atts = .error e) := by
  have hinv : ∀ r, classify_attachments_flat8 atts = .ok r →
      atts.length = 8 ∧
        (atts.filter (fun a => is_audio_name a.filename)).length = 4 ∧
        (atts.filter (fun a => is_image_name a.filename)).length = 4 := by
    intro r hr
    unfold classify_attachments_flat8 at hr
    by_cases h8 : atts.length = 8
    · rw [if_neg (by omega)] at hr
      simp only [List.length_map] at hr
      split at hr
      · rename_i hcond
        exact ⟨h8, hcond⟩
      · exact absurd hr (by simp)
    · rw [if_pos h8] at hr
      exact absurd hr (by simp)
  refine ⟨⟨fun ⟨r, hr⟩ => hinv r hr, fun ⟨h8, ha, hi⟩ =>
    ⟨_, classify_flat8_ok atts h8 ha hi⟩⟩, ?_, ?_⟩
  · intro r hr
    obtain ⟨h8, ha, hi⟩ := hinv r hr
    rw [classify_flat8_ok atts h8 ha hi] at hr
    cases hr
    simp [ha, hi]
  · intro hnot
    by_cases h8 : atts.length = 8
    · have : ¬ ((atts.filter (fun a => is_audio_name a.filename)).length = 4 ∧
          (atts.filter (fun a => is_image_name a.filename)).length = 4) := by
        intro hc
        exact hnot ⟨h8, hc⟩
      have heq : classify_attachments_flat8 atts =
          .error (.wrongTypes (atts.filter (fun a => is_audio_name a.filename)).length
                              (atts.filter (fun a => is_image_name a.filename)).length) := by
        unfold classify_attachments_flat8
        rw [if_neg (by omega)]
        simp only [List.length_map]
        rw [if_neg this]
      exact ⟨_, heq⟩
    · have heq : classify_attachments_flat8 atts = .error (.wrongCount atts.length) := by
        unfold classify_attachments_flat8
        rw [if_pos h8]
      exact ⟨_, heq⟩

/-- Witness for C4: 8 attachments, 4 mp3 then 4 png in fetch order, extract to
4 images and 4 audios, each reversed. -/
theorem flat8_mode_extraction_correct_witness :
    (∃ r, classify_attachments_flat8
      [⟨['a', '1', '.', 'm', 'p', '3'], "a1"⟩, ⟨['a', '2', '.', 'm', 'p', '3'], "a2"⟩,
       ⟨['a', '3', '.', 'm', 'p', '3'], "a3"⟩, ⟨['a', '4', '.', 'm', 'p', '3'], "a4"⟩,
       ⟨['i', '1', '.', 'p', 'n', 'g'], "i1"⟩, ⟨['i', '2', '.', 'p', 'n', 'g'], "i2"⟩,
       ⟨['i', '3', '.', 'p', 'n', 'g'], "i3"⟩, ⟨['i', '4', '.', 'p', 'n', 'g'], "i4"⟩] = .ok r) ∧
    (∀ r, classify_attachments_flat8
      [⟨['a', '1', '.', 'm', 'p', '3'], "a1"⟩, ⟨['a', '2', '.', 'm', 'p', '3'], "a2"⟩,
       ⟨['a', '3', '.', 'm', 'p', '3'], "a3"⟩, ⟨['a', '4', '.', 'm', 'p', '3'], "a4"⟩,
       ⟨['i', '1', '.', 'p', 'n', 'g'], "i1"⟩, ⟨['i', '2', '.', 'p', 'n', 'g'], "i2"⟩,
       ⟨['i', '3', '.', 'p', 'n', 'g'], "i3"⟩, ⟨['i', '4', '.', 'p', 'n', 'g'], "i4"⟩] = .ok r →
      r.images = ["i4", "i3", "i2", "i1"] ∧ r.audios = ["a4", "a3", "a2", "a1"]) := by
  constructor
  · exact (flat8_mode_extraction_correct _).1.mpr ⟨by decide, by decide, by decide⟩
  · intro r hr
    obtain ⟨-, -, hi, ha⟩ := (flat8_mode_extraction_correct _).2.1 r hr
    rw [hi, ha]
    decide

/-! ## The wizard job state machine (`DiscordBulkJobService`) -/

inductive Status
  | pending
  | running
  | completed
  | cancelled
  | error
deriving DecidableEq, Repr

/-- Entries of `job_data['errors']`, identified by the code site that appends
them and the (image set, video index) they concern. -/
inductive ErrEntry
  | extractErr (set vid : Nat)
  | dispatchErr (set vid : Nat)
  | itemErr (set vid : Nat)
  | setErr (set : Nat)
deriving DecidableEq, Repr

/-- The mutable wizard job record (`job_data`), with `inStore` standing for
`job_id in self.active_jobs` and `nextPostSet` for `next_post_time` holding a
timestamp rather than `None`. -/
structure JobState where
  numVideos : Nat
  useSecondSet : Bool
  intervalMinutes : Nat
  totalItems : Nat
  completed : Nat
  failed : Nat
  status : Status
  errors : List ErrEntry
  inStore : Bool
  nextPostSet : Bool
deriving DecidableEq, Repr

/-- Per-item fate of the worker body (lines 231-296): `ok` - extraction and
webhook post succeed; `dispatchFail` - extraction succeeds but
`_post_to_n8n_webhook` returns False; `extractFail` - `_extract_attachments`
raises, caught by the handler of lines 243-250; `itemUnexpected` - any other
exception inside the loop body, caught by the per-item handler of lines
298-304. -/
inductive ItemOutcome
  | ok
  | dispatchFail
  | extractFail
  | itemUnexpected
deriving DecidableEq, Repr

/-- One deterministic interleaving of the worker with its environment:
per-item outcomes, and at which poll points an external `cancel_job` call is
interleaved or the shutdown event is observed. `prologueRaises s` models an
exception at image set `s` that escapes the per-item error handling and is
caught only by the set-level handler of lines 306-311. -/
structure Env where
  outcome : Nat → Nat → ItemOutcome
  cancelAt : Nat → Nat → Bool
  shutdownAt : Nat → Nat → Bool
  shutdownInSleep : Nat → Nat → Bool
  prologueRaises : Nat → Bool

/-- `cancel_job` (lines 398-409): fails when the job is unknown or already in
a terminal state, otherwise sets the status to cancelled. -/
def cancel_job (j : JobState) : Bool × JobState :=
  if ¬ j.inStore then (false, j)
  else if j.status = .completed ∨ j.status = .cancelled ∨ j.status = .error then
    (false, j)
  else (true, { j with status := .cancelled })

/-- Worker events, for ordering and interval properties: a webhook dispatch
for (set, video), the assignment of `next_post_time` after an item, and the
inter-item interval wait. -/
inductive Ev
  | dispatch (set vid : Nat)
  | setNextPost (set vid : Nat)
  | sleep (set vid : Nat)
deriving DecidableEq, Repr

/-- A `cancel_job` call interleaved just before the worker's poll points of
this iteration (external callers hold the same lock). -/
def perhaps_cancel (env : Env) (setNo vid : Nat) (j : JobState) : JobState :=
  if env.cancelAt setNo vid then (cancel_job j).2 else j

/-- The status write of lines 222-224 and 292-294, guarded by store
membership. -/
def mark_cancelled (j : JobState) : JobState :=
  if j.inStore then { j with status := .cancelled } else j

/-- The failure lock blocks of lines 246-249 and 301-304. -/
def record_failure (e : ErrEntry) (j : JobState) : JobState :=
  if j.inStore then { j with failed := j.failed + 1, errors := j.errors ++ [e] }
  else j

/-- The counter lock block of lines 266-279: increment `completed`, count a
failed post, and set `next_post_time` when items remain. -/
def record_dispatch (setNo vid : Nat) (failedPost : Bool) (j : JobState) :
    JobState :=
  if j.inStore then
    let j1 := { j with completed := j.completed + 1 }
    let j2 := if failedPost then
        { j1 with failed := j1.failed + 1,
                  errors := j1.errors ++ [.dispatchErr setNo vid] }
      else j1
    if j2.completed < j2.totalItems then { j2 with nextPostSet := true } else j2
  else j

/-- One iteration of the `for video_index in range(num_videos)` loop of
`_process_image_set` (lines 217-304): shutdown check, store/cancellation
check, extraction, dispatch, the counter lock block, and the sliced interval
wait of lines 283-296 (entered only when `completed < total_items`; its body,
which polls the shutdown event and sleeps, runs only when the interval is
positive). The returned Bool is `true` when the iteration `return`s out of
the whole set. -/
def process_item (env : Env) (setNo vid : Nat) (j0 : JobState) :
    JobState × List Ev × Bool :=
  let j := perhaps_cancel env setNo vid j0
  if env.shutdownAt setNo vid then (mark_cancelled j, [], true)
  else if ¬ j.inStore ∨ j.status = .cancelled then (j, [], true)
  else
    match env.outcome setNo vid with
    | .extractFail => (record_failure (.extractErr setNo vid) j, [], false)
    | .itemUnexpected => (record_failure (.itemErr setNo vid) j, [], false)
    | o =>
        let j2 := record_dispatch setNo vid (o = .dispatchFail) j
        let postEv := if j2.inStore ∧ j2.completed < j2.totalItems then
            [Ev.setNextPost setNo vid]
          else []
        if j2.completed < j2.totalItems ∧ 0 < j2.intervalMinutes then
          if env.shutdownInSleep setNo vid then
            (mark_cancelled j2, Ev.dispatch setNo vid :: postEv, true)
          else (j2, Ev.dispatch setNo vid :: postEv ++ [Ev.sleep setNo vid], false)
        else (j2, Ev.dispatch setNo vid :: postEv, false)

/-- The remaining iterations of one image set's loop. Besides the final state
and the events, it returns the job states observable after each iteration
(the lock is released between iterations). -/
def run_items (env : Env) (setNo : Nat) (vids : List Nat) (j : JobState) :
    JobState × List Ev × List JobState :=
  match vids with
  | [] => (j, [], [])
  | v :: rest =>
    match process_item env setNo v j with
    | (j1, evs, true) => (j1, evs, [j1])
    | (j1, evs, false) =>
      let r := run_items env setNo rest j1
      (r.1, evs ++ r.2.1, j1 :: r.2.2)

/-- `_process_image_set` (lines 204-311): the per-video loop wrapped in the
set-level exception handler, which records an error and swallows the
exception (the function then returns normally). -/
def process_image_set (env : Env) (setNo : Nat) (j : JobState) :
    JobState × List Ev × List JobState :=
  if env.prologueRaises setNo then
    (if j.inStore then { j with errors := j.errors ++ [.setErr setNo] } else j,
     [], [])
  else run_items env setNo (List.range j.numVideos) j

/-- `_process_wizard_job` (lines 166-202): mark the job running, process image
set 1, process image set 2 when enabled, then unconditionally mark the job
completed (whenever it is still in the store) and clear `next_post_time`.
The returned state list holds every observable intermediate state. -/
def process_wizard_job (env : Env) (j : JobState) :
    JobState × List Ev × List JobState :=
  if ¬ j.inStore then (j, [], [])
  else
    let j0 := { j with status := .running }
    let r1 := process_image_set env 1 j0
    let r2 := if r1.1.useSecondSet then process_image_set env 2 r1.1
      else (r1.1, [], [])
    let jf := if r2.1.inStore then
        { r2.1 with status := .completed, nextPostSet := false }
      else r2.1
    (jf, r1.2.1 ++ r2.2.1, j :: j0 :: (r1.2.2 ++ r2.2.2 ++ [jf]))

/-- The inputs of `create_wizard_bulk_job` that its validation and job-record
construction read; `botToken` stands for `self.bot_token` being configured.
Strings and link lists are only tested for Python truthiness (non-emptiness)
by the validation. -/
structure WizardRequest where
  numVideos : Nat
  webhookUrl : String
  webhookType : String
  titles : List String
  audioLinks : List String
  backgroundAudioLinks : List String
  imageLinks : List String
  imageSetChannel : String
  useSecondImageSet : Bool
  secondImageLinks : List String
  secondImageSetChannel : String
  intervalMinutes : Nat

/-- `create_wizard_bulk_job` (lines 105-158): the `all([...])` truthiness
validation, the bot-token check, `total_jobs = num_videos * (2 if
use_second_image_set else 1)`, and the initial job record (status pending,
counters zero, no `next_post_time`). `none` when rejected before any thread
is spawned. -/
def create_wizard_bulk_job (botToken : Bool) (r : WizardRequest) :
    Option JobState :=
  if r.numVideos = 0 ∨ r.webhookUrl = "" ∨ r.webhookType = "" ∨ r.titles = [] ∨
     r.audioLinks = [] ∨ r.backgroundAudioLinks = [] ∨ r.imageLinks = [] ∨
     r.imageSetChannel = "" then none
  else if ¬ botToken then none
  else some {
    numVideos := r.numVideos
    useSecondSet := r.useSecondImageSet
    intervalMinutes := r.intervalMinutes
    totalItems := r.numVideos * (if r.useSecondImageSet then 2 else 1)
    completed := 0
    failed := 0
    status := .pending
    errors := []
    inStore := true
    nextPostSet := false }

/-! ### Frame lemmas for the worker's lock blocks -/

@[simp] theorem perhaps_cancel_totalItems (env : Env) (setNo vid : Nat) (j : JobState) :
    (perhaps_cancel env setNo vid j).totalItems = j.totalItems := by
  unfold perhaps_cancel cancel_job
  try dsimp only
  repeat' split
  all_goals rfl

@[simp] theorem perhaps_cancel_numVideos (env : Env) (setNo vid : Nat) (j : JobState) :
    (perhaps_cancel env setNo vid j).numVideos = j.numVideos := by
  unfold perhaps_cancel cancel_job
  try dsimp only
  repeat' split
  all_goals rfl

@[simp] theorem perhaps_cancel_useSecondSet (env : Env) (setNo vid : Nat) (j : JobState) :
    (perhaps_cancel env setNo vid j).useSecondSet = j.useSecondSet := by
  unfold perhaps_cancel cancel_job
  try dsimp only
  repeat' split
  all_goals rfl

@[simp] theorem perhaps_cancel_intervalMinutes (env : Env) (setNo vid : Nat) (j : JobState) :
    (perhaps_cancel env setNo vid j).intervalMinutes = j.intervalMinutes := by
  unfold perhaps_cancel cancel_job
  try dsimp only
  repeat' split
  all_goals rfl

@[simp] theorem perhaps_cancel_inStore (env : Env) (setNo vid : Nat) (j : JobState) :
    (perhaps_cancel env setNo vid j).inStore = j.inStore := by
  unfold perhaps_cancel cancel_job
  try dsimp only
  repeat' split
  all_goals rfl

@[simp] theorem perhaps_cancel_completed (env : Env) (setNo vid : Nat) (j : JobState) :
    (perhaps_cancel env setNo vid j).completed = j.completed := by
  unfold perhaps_cancel cancel_job
  try dsimp only
  repeat' split
  all_goals rfl

@[simp] theorem perhaps_cancel_failed (env : Env) (setNo vid : Nat) (j : JobState) :
    (perhaps_cancel env setNo vid j).failed = j.failed := by
  unfold perhaps_cancel cancel_job
  try dsimp only
  repeat' split
  all_goals rfl

@[simp] theorem mark_cancelled_totalItems (j : JobState) :
    (mark_cancelled j).totalItems = j.totalItems := by
  unfold mark_cancelled
  try dsimp only
  repeat' split
  all_goals rfl

@[simp] theorem mark_cancelled_numVideos (j : JobState) :
    (mark_cancelled j).numVideos = j.numVideos := by
  unfold mark_cancelled
  try dsimp only
  repeat' split
  all_goals rfl

@[simp] theorem mark_cancelled_useSecondSet (j : JobState) :
    (mark_cancelled j).useSecondSet = j.useSecondSet := by
  unfold mark_cancelled
  try dsimp only
  repeat' split
  all_goals rfl

@[simp] theorem mark_cancelled_intervalMinutes (j : JobState) :
    (mark_cancelled j).intervalMinutes = j.intervalMinutes := by
  unfold mark_cancelled
  try dsimp only
  repeat' split
  all_goals rfl

@[simp] theorem mark_cancelled_inStore (j : JobState) :
    (mark_cancelled j).inStore = j.inStore := by
  unfold mark_cancelled
  try dsimp only
  repeat' split
  all_goals rfl

@[simp] theorem mark_cancelled_completed (j : JobState) :
    (mark_cancelled j).completed = j.completed := by
  unfold mark_cancelled
  try dsimp only
  repeat' split
  all_goals rfl

@[simp] theorem mark_cancelled_failed (j : JobState) :
    (mark_cancelled j).failed = j.failed := by
  unfold mark_cancelled
  try dsimp only
  repeat' split
  all_goals rfl

@[simp] theorem record_failure_totalItems (e : ErrEntry) (j : JobState) :
    (record_failure e j).totalItems = j.totalItems := by
  unfold record_failure
  try dsimp only
  repeat' split
  all_goals rfl

@[simp] theorem record_failure_numVideos (e : ErrEntry) (j : JobState) :
    (record_failure e j).numVideos = j.numVideos := by
  unfold record_failure
  try dsimp only
  repeat' split
  all_goals rfl

@[simp] theorem record_failure_useSecondSet (e : ErrEntry) (j : JobState) :
    (record_failure e j).useSecondSet = j.useSecondSet := by
  unfold record_failure
  try dsimp only
  repeat' split
  all_goals rfl

@[simp] theorem record_failure_intervalMinutes (e : ErrEntry) (j : JobState) :
    (record_failure e j).intervalMinutes = j.intervalMinutes := by
  unfold record_failure
  try dsimp only
  repeat' split
  all_goals rfl

@[simp] theorem record_failure_inStore (e : ErrEntry) (j : JobState) :
    (record_failure e j).inStore = j.inStore := by
  unfold record_failure
  try dsimp only
  repeat' split
  all_goals rfl

@[simp] theorem record_failure_completed (e : ErrEntry) (j : JobState) :
    (record_failure e j).completed = j.completed := by
  unfold record_failure
  try dsimp only
  repeat' split
  all_goals rfl

@[simp] theorem record_failure_status (e : ErrEntry) (j : JobState) :
    (record_failure e j).status = j.status := by
  unfold record_failure
  try dsimp only
  repeat' split
  all_goals rfl

@[simp] theorem record_dispatch_totalItems (setNo vid : Nat) (f : Bool) (j : JobState) :
    (record_dispatch setNo vid f j).totalItems = j.totalItems := by
  unfold record_dispatch
  try dsimp only
  repeat' split
  all_goals rfl

@[simp] theorem record_dispatch_numVideos (setNo vid : Nat) (f : Bool) (j : JobState) :
    (record_dispatch setNo vid f j).numVideos = j.numVideos := by
  unfold record_dispatch
  try dsimp only
  repeat' split
  all_goals rfl

@[simp] theorem record_dispatch_useSecondSet (setNo vid : Nat) (f : Bool) (j : JobState) :
    (record_dispatch setNo vid f j).useSecondSet = j.useSecondSet := by
  unfold record_dispatch
  try dsimp only
  repeat' split
  all_goals rfl

@[simp] theorem record_dispatch_intervalMinutes (setNo vid : Nat) (f : Bool) (j : JobState) :
    (record_dispatch setNo vid f j).intervalMinutes = j.intervalMinutes := by
  unfold record_dispatch
  try dsimp only
  repeat' split
  all_goals rfl

@[simp] theorem record_dispatch_inStore (setNo vid : Nat) (f : Bool) (j : JobState) :
    (record_dispatch setNo vid f j).inStore = j.inStore := by
  unfold record_dispatch
  try dsimp only
  repeat' split
  all_goals rfl

@[simp] theorem record_dispatch_status (setNo vid : Nat) (f : Bool) (j : JobState) :
    (record_dispatch setNo vid f j).status = j.status := by
  unfold record_dispatch
  try dsimp only
  repeat' split
  all_goals rfl


theorem record_failure_failed_le (e : ErrEntry) (j : JobState) :
    j.failed ≤ (record_failure e j).failed ∧
    (record_failure e j).failed ≤ j.failed + 1 := by
  unfold record_failure
  repeat' split
  all_goals simp

theorem record_dispatch_counters (setNo vid : Nat) (f : Bool) (j : JobState) :
    j.completed ≤ (record_dispatch setNo vid f j).completed ∧
    (record_dispatch setNo vid f j).completed ≤ j.completed + 1 ∧
    j.failed ≤ (record_dispatch setNo vid f j).failed ∧
    (record_dispatch setNo vid f j).failed ≤ j.failed + 1 := by
  unfold record_dispatch
  try dsimp only
  repeat' split
  all_goals simp

theorem perhaps_cancel_of_not_cancelAt (env : Env) (setNo vid : Nat)
    (j : JobState) (h : env.cancelAt setNo vid = false) :
    perhaps_cancel env setNo vid j = j := by
  unfold perhaps_cancel
  rw [h]
  rfl

theorem record_failure_of_inStore (e : ErrEntry) (j : JobState)
    (h : j.inStore = true) :
    record_failure e j =
      { j with failed := j.failed + 1, errors := j.errors ++ [e] } := by
  unfold record_failure
  rw [if_pos h]

theorem record_dispatch_completed_of_inStore (setNo vid : Nat) (f : Bool)
    (j : JobState) (h : j.inStore = true) :
    (record_dispatch setNo vid f j).completed = j.completed + 1 := by
  unfold record_dispatch
  rw [if_pos h]
  try dsimp only
  repeat' split
  all_goals rfl

/-- Frame relation between an earlier and a later state of the same job: the
immutable configuration fields are preserved, store membership never changes,
and the progress counters grow monotonically by at most `d`. -/
def frameOK (d : Nat) (j r : JobState) : Prop :=
  r.totalItems = j.totalItems ∧ r.numVideos = j.numVideos ∧
  r.useSecondSet = j.useSecondSet ∧ r.intervalMinutes = j.intervalMinutes ∧
  r.inStore = j.inStore ∧
  j.completed ≤ r.completed ∧ r.completed ≤ j.completed + d ∧
  j.failed ≤ r.failed ∧ r.failed ≤ j.failed + d

theorem frameOK_mono {d d' : Nat} {j r : JobState} (h : frameOK d j r)
    (hd : d ≤ d') : frameOK d' j r := by
  obtain ⟨e1, e2, e3, e4, e5, l1, l2, l3, l4⟩ := h
  exact ⟨e1, e2, e3, e4, e5, l1, by omega, l3, by omega⟩

theorem frameOK_trans {d1 d2 : Nat} {a b c : JobState} (h1 : frameOK d1 a b)
    (h2 : frameOK d2 b c) : frameOK (d1 + d2) a c := by
  obtain ⟨e1, e2, e3, e4, e5, l1, l2, l3, l4⟩ := h1
  obtain ⟨f1, f2, f3, f4, f5, m1, m2, m3, m4⟩ := h2
  refine ⟨e1 ▸ f1, e2 ▸ f2, e3 ▸ f3, e4 ▸ f4, e5 ▸ f5, ?_, ?_, ?_, ?_⟩ <;> omega

theorem frameOK_perhaps_cancel (env : Env) (setNo vid : Nat) (j : JobState) :
    frameOK 0 j (perhaps_cancel env setNo vid j) := by
  refine ⟨by simp, by simp, by simp, by simp, by simp, ?_, ?_, ?_, ?_⟩ <;> simp

theorem frameOK_mark_cancelled (j : JobState) : frameOK 0 j (mark_cancelled j) := by
  refine ⟨by simp, by simp, by simp, by simp, by simp, ?_, ?_, ?_, ?_⟩ <;> simp

theorem frameOK_record_failure (e : ErrEntry) (j : JobState) :
    frameOK 1 j (record_failure e j) := by
  obtain ⟨h1, h2⟩ := record_failure_failed_le e j
  exact ⟨by simp, by simp, by simp, by simp, by simp, by simp, by simp, h1, h2⟩

theorem frameOK_record_dispatch (setNo vid : Nat) (f : Bool) (j : JobState) :
    frameOK 1 j (record_dispatch setNo vid f j) := by
  obtain ⟨h1, h2, h3, h4⟩ := record_dispatch_counters setNo vid f j
  exact ⟨by simp, by simp, by simp, by simp, by simp, h1, h2, h3, h4⟩

theorem process_item_frame (env : Env) (setNo vid : Nat) (j : JobState)
    (r : JobState × List Ev × Bool) (hr : process_item env setNo vid j = r) :
    frameOK 1 j r.1 := by
  unfold process_item at hr
  try dsimp only at hr
  repeat' split at hr
  all_goals subst hr
  all_goals first
  | exact frameOK_mono
      (frameOK_trans (frameOK_perhaps_cancel env setNo vid j)
        (frameOK_mark_cancelled _)) (by omega)
  | exact frameOK_mono (frameOK_perhaps_cancel env setNo vid j) (by omega)
  | exact frameOK_trans (frameOK_perhaps_cancel env setNo vid j)
      (frameOK_record_failure _ _)
  | exact frameOK_mono
      (frameOK_trans
        (frameOK_trans (frameOK_perhaps_cancel env setNo vid j)
          (frameOK_record_dispatch _ _ _ _))
        (frameOK_mark_cancelled _)) (by omega)
  | exact frameOK_trans (frameOK_perhaps_cancel env setNo vid j)
      (frameOK_record_dispatch _ _ _ _)

theorem run_items_frame (env : Env) (setNo : Nat) (vids : List Nat)
    (j : JobState) :
    frameOK vids.length j (run_items env setNo vids j).1 ∧
    ∀ s ∈ (run_items env setNo vids j).2.2, frameOK vids.length j s := by
  induction vids generalizing j with
  | nil =>
    constructor
    · show frameOK 0 j (run_items env setNo [] j).1
      unfold run_items frameOK
      dsimp only
      refine ⟨rfl, rfl, rfl, rfl, rfl, ?_, ?_, ?_, ?_⟩ <;> omega
    · simp [run_items]
  | cons v rest ih =>
    rcases hpi : process_item env setNo v j with ⟨j1, evs, ex⟩
    have hfr : frameOK 1 j j1 := process_item_frame env setNo v j _ hpi
    cases ex with
    | true =>
      simp only [run_items, hpi]
      exact ⟨frameOK_mono hfr (by simp), by
        intro s hs
        simp only [List.mem_singleton] at hs
        subst hs
        exact frameOK_mono hfr (by simp)⟩
    | false =>
      simp only [run_items, hpi]
      obtain ⟨ih1, ih2⟩ := ih j1
      refine ⟨?_, ?_⟩
      · have := frameOK_trans hfr ih1
        exact frameOK_mono this (by simp; omega)
      · intro s hs
        simp only [List.mem_cons] at hs
        rcases hs with rfl | hs
        · exact frameOK_mono hfr (by simp)
        · exact frameOK_mono (frameOK_trans hfr (ih2 s hs)) (by simp; omega)

theorem process_image_set_frame (env : Env) (setNo : Nat) (j : JobState) :
    frameOK j.numVideos j (process_image_set env setNo j).1 ∧
    ∀ s ∈ (process_image_set env setNo j).2.2, frameOK j.numVideos j s := by
  unfold process_image_set
  split
  · refine ⟨?_, by simp⟩
    unfold frameOK
    split <;>
      (dsimp only; refine ⟨rfl, rfl, rfl, rfl, rfl, ?_, ?_, ?_, ?_⟩ <;> omega)
  · have := run_items_frame env setNo (List.range j.numVideos) j
    simpa [List.length_range] using this

@[simp] theorem frameOK_status_update (d : Nat) (j s : JobState) (x : Status) :
    frameOK d { j with status := x } s ↔ frameOK d j s := Iff.rfl

theorem wizard_states_counter_bounds (env : Env) (j0 : JobState)
    (hc : j0.completed = 0) (hf : j0.failed = 0)
    (ht : j0.totalItems = j0.numVideos * (if j0.useSecondSet then 2 else 1)) :
    ∀ s ∈ (process_wizard_job env j0).2.2,
      s.completed ≤ s.totalItems ∧ s.failed ≤ s.totalItems := by
  intro s hs
  unfold process_wizard_job at hs
  split at hs
  · simp at hs
  · rcases h1 : process_image_set env 1 { j0 with status := Status.running }
      with ⟨j1, evs1, sts1⟩
    have hfr1 := process_image_set_frame env 1 { j0 with status := Status.running }
    rw [h1] at hfr1
    dsimp only at hfr1
    simp only [frameOK_status_update] at hfr1
    dsimp only at hs
    rw [h1] at hs
    dsimp only at hs
    obtain ⟨⟨t1, n1, u1, i1, st1, c1l, c1u, f1l, f1u⟩, hsts1⟩ := hfr1
    by_cases hu : j1.useSecondSet = true
    · rw [if_pos hu] at hs
      rcases h2 : process_image_set env 2 j1 with ⟨j2, evs2, sts2⟩
      have hfr2 := process_image_set_frame env 2 j1
      rw [h2] at hfr2
      dsimp only at hfr2
      rw [h2] at hs
      dsimp only at hs
      obtain ⟨⟨t2, n2, u2, i2, st2, c2l, c2u, f2l, f2u⟩, hsts2⟩ := hfr2
      have hT : j0.totalItems = j0.numVideos * 2 := by
        rw [ht, if_pos (u1 ▸ hu)]
      simp only [List.mem_cons, List.mem_append, List.not_mem_nil,
        or_false] at hs
      rcases hs with rfl | rfl | (hs1 | hs2) | rfl
      · omega
      · constructor <;> (dsimp only; omega)
      · obtain ⟨ts, ns, us, is_, sts, csl, csu, fsl, fsu⟩ := hsts1 s hs1
        omega
      · obtain ⟨ts, ns, us, is_, sts, csl, csu, fsl, fsu⟩ := hsts2 s hs2
        omega
      · split <;> (constructor <;> (dsimp only; omega))
    · rw [if_neg hu] at hs
      dsimp only at hs
      have hu' : j0.useSecondSet = false := by
        revert hu
        rw [u1]
        cases j0.useSecondSet <;> simp
      have hT : j0.totalItems = j0.numVideos := by
        rw [ht, hu']
        simp
      simp only [List.mem_cons, List.mem_append, List.not_mem_nil, or_false,
        List.append_nil] at hs
      rcases hs with rfl | rfl | hs1 | rfl

      · omega
      · constructor <;> (dsimp only; omega)
      · obtain ⟨ts, ns, us, is_, sts, csl, csu, fsl, fsu⟩ := hsts1 s hs1
        omega
      · split <;> (constructor <;> (dsimp only; omega))

/-- All items of the run reach the dispatch step (no extraction failures and
no unexpected per-item errors). -/
def outcomes_dispatching (env : Env) : Prop :=
  ∀ s v, env.outcome s v = ItemOutcome.ok ∨
    env.outcome s v = ItemOutcome.dispatchFail

theorem record_dispatch_failed_le (setNo vid : Nat) (f : Bool) (j : JobState)
    (h : j.failed ≤ j.completed) :
    (record_dispatch setNo vid f j).failed ≤
      (record_dispatch setNo vid f j).completed := by
  unfold record_dispatch
  try dsimp only
  repeat' split
  all_goals try dsimp only
  all_goals omega

theorem process_item_failed_le (env : Env) (hd : outcomes_dispatching env)
    (setNo vid : Nat) (j : JobState) (r : JobState × List Ev × Bool)
    (hr : process_item env setNo vid j = r) (h : j.failed ≤ j.completed) :
    r.1.failed ≤ r.1.completed := by
  have hpc : (perhaps_cancel env setNo vid j).failed ≤
      (perhaps_cancel env setNo vid j).completed := by simpa using h
  unfold process_item at hr
  try dsimp only at hr
  repeat' split at hr
  all_goals subst hr
  all_goals first
    | simpa using h
    | exact record_dispatch_failed_le _ _ _ _ hpc
    | (show (mark_cancelled _).failed ≤ (mark_cancelled _).completed
       simp only [mark_cancelled_failed, mark_cancelled_completed]
       exact record_dispatch_failed_le _ _ _ _ hpc)
    | (rcases hd setNo vid with h' | h' <;> simp_all)

theorem run_items_failed_le (env : Env) (hd : outcomes_dispatching env)
    (setNo : Nat) (vids : List Nat) (j : JobState)
    (h : j.failed ≤ j.completed) :
    (run_items env setNo vids j).1.failed ≤
      (run_items env setNo vids j).1.completed ∧
    ∀ s ∈ (run_items env setNo vids j).2.2, s.failed ≤ s.completed := by
  induction vids generalizing j with
  | nil => exact ⟨by simpa [run_items] using h, by simp [run_items]⟩
  | cons v rest ih =>
    rcases hpi : process_item env setNo v j with ⟨j1, evs, ex⟩
    have h1 : j1.failed ≤ j1.completed :=
      process_item_failed_le env hd setNo v j _ hpi h
    cases ex with
    | true =>
      simp only [run_items, hpi]
      refine ⟨h1, ?_⟩
      intro s hs
      simp only [List.mem_singleton] at hs
      subst hs
      exact h1
    | false =>
      simp only [run_items, hpi]
      obtain ⟨ih1, ih2⟩ := ih j1 h1
      refine ⟨ih1, ?_⟩
      intro s hs
      simp only [List.mem_cons] at hs
      rcases hs with rfl | hs
      · exact h1
      · exact ih2 s hs

theorem process_image_set_failed_le (env : Env) (hd : outcomes_dispatching env)
    (setNo : Nat) (j : JobState) (h : j.failed ≤ j.completed) :
    (process_image_set env setNo j).1.failed ≤
      (process_image_set env setNo j).1.completed ∧
    ∀ s ∈ (process_image_set env setNo j).2.2, s.failed ≤ s.completed := by
  unfold process_image_set
  split
  · refine ⟨?_, by simp⟩
    split
    · simpa using h
    · simpa using h
  · exact run_items_failed_le env hd setNo _ j h

theorem wizard_states_failed_le (env : Env) (hd : outcomes_dispatching env)
    (j0 : JobState) (h : j0.failed ≤ j0.completed) :
    ∀ s ∈ (process_wizard_job env j0).2.2, s.failed ≤ s.completed := by
  intro s hs
  unfold process_wizard_job at hs
  split at hs
  · simp at hs
  · rcases h1 : process_image_set env 1 { j0 with status := Status.running }
      with ⟨j1, evs1, sts1⟩
    have hse1 := process_image_set_failed_le env hd 1
      { j0 with status := Status.running } (by simpa using h)
    rw [h1] at hse1
    dsimp only at hse1
    obtain ⟨hj1, hsts1⟩ := hse1
    dsimp only at hs
    rw [h1] at hs
    dsimp only at hs
    split at hs
    · rcases h2 : process_image_set env 2 j1 with ⟨j2, evs2, sts2⟩
      have hse2 := process_image_set_failed_le env hd 2 j1 hj1
      rw [h2] at hse2
      dsimp only at hse2
      obtain ⟨hj2, hsts2⟩ := hse2
      rw [h2] at hs
      dsimp only at hs
      simp only [List.mem_cons, List.mem_append, List.not_mem_nil,
        or_false] at hs
      rcases hs with rfl | rfl | (hs1 | hs2) | rfl
      · exact h
      · simpa using h
      · exact hsts1 s hs1
      · exact hsts2 s hs2
      · split <;> simpa using hj2
    · simp only [List.mem_cons, List.mem_append, List.not_mem_nil, or_false,
        List.append_nil] at hs
      rcases hs with rfl | rfl | hs1 | rfl
      · exact h
      · simpa using h
      · exact hsts1 s hs1
      · split <;> simpa using hj1

/-! ### Concrete fixtures for the claims -/

/-- A freshly created one-video wizard job (no second set, 5 minute interval),
exactly the record `create_wizard_bulk_job` builds. -/
def oneVideoJob : JobState :=
  { numVideos := 1, useSecondSet := false, intervalMinutes := 5, totalItems := 1,
    completed := 0, failed := 0, status := .pending, errors := [],
    inStore := true, nextPostSet := false }

def twoVideoJob : JobState := { oneVideoJob with numVideos := 2, totalItems := 2 }

def twoVideoTwoSetJob : JobState :=
  { oneVideoJob with numVideos := 2, useSecondSet := true, totalItems := 4 }

/-- Environment with every item succeeding and no external interference. -/
def quietEnv : Env :=
  ⟨fun _ _ => .ok, fun _ _ => false, fun _ _ => false, fun _ _ => false,
   fun _ => false⟩

/-- Every extraction raises; no external interference. -/
def extractFailEnv : Env := { quietEnv with outcome := fun _ _ => .extractFail }

/-- `cancel_job` is interleaved just before the worker's first poll point. -/
def cancelRaceEnv : Env :=
  { quietEnv with cancelAt := fun s v => s == 1 && v == 0 }

/-- C1 (code bug): `cancel_job` on the running one-video job succeeds and sets
the terminal status cancelled, the worker's loop observes it and dispatches
nothing — yet `_process_wizard_job` then overwrites the terminal cancelled
status with completed (lines 185-188 run unconditionally whenever the job is
still in the store), so the job's final status is completed. -/
theorem cancelled_status_overwritten_by_worker :
    create_wizard_bulk_job true
      ⟨1, "w", "submit_job", ["t"], ["a"], ["b"], ["i"], "general", false, [],
       "", 5⟩ = some oneVideoJob ∧
    (cancel_job { oneVideoJob with status := .running }).1 = true ∧
    (cancel_job { oneVideoJob with status := .running }).2.status = .cancelled ∧
    (process_wizard_job cancelRaceEnv oneVideoJob).2.1 = [] ∧
    (process_wizard_job cancelRaceEnv oneVideoJob).1.status = .completed := by
  refine ⟨by decide, by decide, by decide, by decide, by decide⟩

/-- C3 amended: a per-item extraction failure records the error, increments
`failed` by 1, leaves `completed` unchanged (the code increments `completed`
only in the dispatch lock block, which an extraction failure never reaches),
and continues with the next item (the iteration does not exit the loop). -/
theorem extraction_failure_failed_only_and_continues (env : Env)
    (setNo vid : Nat) (j : JobState)
    (hc : env.cancelAt setNo vid = false)
    (hs : env.shutdownAt setNo vid = false)
    (hin : j.inStore = true)
    (hnc : j.status ≠ .cancelled)
    (ho : env.outcome setNo vid = .extractFail) :
    process_item env setNo vid j =
      ({ j with failed := j.failed + 1,
                errors := j.errors ++ [.extractErr setNo vid] }, [], false) := by
  unfold process_item
  rw [perhaps_cancel_of_not_cancelAt env setNo vid j hc, hs]
  simp only [Bool.false_eq_true, if_false]
  rw [if_neg (by simp [hin, hnc])]
  rw [ho]
  rw [record_failure_of_inStore _ _ hin]

/-- Witness for C3's amended theorem at a concrete job and environment. -/
theorem extraction_failure_failed_only_witness :
    process_item extractFailEnv 1 0 { twoVideoJob with status := .running } =
      ({ twoVideoJob with status := .running, failed := 1,
                          errors := [.extractErr 1 0] }, [], false) :=
  extraction_failure_failed_only_and_continues extractFailEnv 1 0
    { twoVideoJob with status := .running } rfl rfl rfl (by decide) rfl

/-- C3 counterexample: in the one-item run whose extraction fails, `failed`
ends at 1 but `completed` ends at 0, and the error is recorded — against the
claim that `completed` is also incremented on extraction failure. -/
theorem extraction_failure_completed_not_incremented_cex :
    (process_wizard_job extractFailEnv oneVideoJob).1.failed = 1 ∧
    (process_wizard_job extractFailEnv oneVideoJob).1.completed = 0 ∧
    (process_wizard_job extractFailEnv oneVideoJob).1.errors =
      [.extractErr 1 0] := by
  refine ⟨by decide, by decide, by decide⟩

/-- C2 corrected: for every wizard job as created (counters zero,
`total_items = num_videos * sets`), at every observable point of the worker's
run `completed ≤ total_items` and `failed ≤ total_items` hold, and
`failed ≤ completed` additionally holds whenever every item reaches the
dispatch step (no extraction failures and no unexpected per-item errors).
With extraction failures, `failed ≤ completed` can be violated (see the
counterexample): such a failure increments `failed` without `completed`. -/
theorem counter_inequalities (botToken : Bool) (req : WizardRequest)
    (env : Env) (j0 : JobState)
    (hcreate : create_wizard_bulk_job botToken req = some j0) :
    (∀ s ∈ (process_wizard_job env j0).2.2,
       s.completed ≤ s.totalItems ∧ s.failed ≤ s.totalItems) ∧
    (outcomes_dispatching env →
      ∀ s ∈ (process_wizard_job env j0).2.2, s.failed ≤ s.completed) := by
  have hj : j0.completed = 0 ∧ j0.failed = 0 ∧
      j0.totalItems = j0.numVideos * (if j0.useSecondSet then 2 else 1) := by
    unfold create_wizard_bulk_job at hcreate
    split at hcreate
    · exact absurd hcreate (by simp)
    · split at hcreate
      · exact absurd hcreate (by simp)
      · injection hcreate with h
        subst h
        exact ⟨rfl, rfl, rfl⟩
  obtain ⟨hc, hf, ht⟩ := hj
  exact ⟨wizard_states_counter_bounds env j0 hc hf ht,
    fun hd => wizard_states_failed_le env hd j0 (by omega)⟩

/-- Witness for C2's theorem: the two-video, two-set job created from a
concrete request, run without interference. -/
theorem counter_inequalities_witness :
    (∀ s ∈ (process_wizard_job quietEnv twoVideoTwoSetJob).2.2,
       s.completed ≤ s.totalItems ∧ s.failed ≤ s.totalItems) ∧
    (outcomes_dispatching quietEnv →
      ∀ s ∈ (process_wizard_job quietEnv twoVideoTwoSetJob).2.2,
        s.failed ≤ s.completed) :=
  counter_inequalities true
    ⟨2, "w", "submit_job", ["t1", "t2"], ["a1", "a2"], ["b1", "b2"],
     ["i1", "i2"], "general", true, ["k1", "k2"], "alt", 5⟩
    quietEnv twoVideoTwoSetJob (by decide)

/-- C2 counterexample: after the worker of a one-item job handles an
extraction failure, the observable terminal state has `failed = 1` and
`completed = 0`, violating the claimed `failed ≤ completed`. -/
theorem failed_exceeds_completed_cex :
    (process_wizard_job extractFailEnv oneVideoJob).1 ∈
      (process_wizard_job extractFailEnv oneVideoJob).2.2 ∧
    (process_wizard_job extractFailEnv oneVideoJob).1.failed = 1 ∧
    (process_wizard_job extractFailEnv oneVideoJob).1.completed = 0 ∧
    ¬ ((process_wizard_job extractFailEnv oneVideoJob).1.failed ≤
       (process_wizard_job extractFailEnv oneVideoJob).1.completed) := by
  refine ⟨by decide, by decide, by decide, by decide⟩

/-- Whenever a job is still in the store, its worker's run ends with status
completed — `_process_wizard_job` assigns it unconditionally at lines
185-188, whatever happened before (including an observed cancellation). -/
theorem process_wizard_final_completed (env : Env) (j : JobState)
    (hin : j.inStore = true) :
    (process_wizard_job env j).1.status = .completed := by
  unfold process_wizard_job
  rw [if_neg (by simp [hin])]
  dsimp only
  rcases h1 : process_image_set env 1 { j with status := .running }
    with ⟨j1, evs1, sts1⟩
  have hf1 := (process_image_set_frame env 1 { j with status := .running }).1
  rw [h1] at hf1
  dsimp only at hf1
  have hin1 : j1.inStore = true := by
    have h5 := hf1.2.2.2.2.1
    dsimp only at h5
    rw [h5]
    exact hin
  dsimp only
  by_cases hu : j1.useSecondSet = true
  · rw [if_pos hu]
    rcases h2 : process_image_set env 2 j1 with ⟨j2, evs2, sts2⟩
    have hf2 := (process_image_set_frame env 2 j1).1
    rw [h2] at hf2
    dsimp only at hf2
    have hin2 : j2.inStore = true := by
      have h5 := hf2.2.2.2.2.1
      rw [h5]
      exact hin1
    dsimp only
    rw [if_pos hin2]
  · rw [if_neg hu]
    dsimp only
    rw [if_pos hin1]

/-- An exception escapes the per-item handling at image set 1; everything
else is quiet. -/
def prologueFailEnv : Env := { quietEnv with prologueRaises := fun s => s == 1 }

/-- C5 corrected: an exception escaping the per-item error handling is caught
by the image-set-level handler (lines 306-311): the error is recorded and the
rest of that set is skipped, but the job is not driven to `error` — the
worker proceeds (to the second image set when enabled) and its run ends with
status completed. The job-level handler of lines 192-197 that would assign
`error` is unreachable for such exceptions. -/
theorem escaped_item_exception_caught_at_set_level (env : Env) (j : JobState)
    (hp : env.prologueRaises 1 = true) (hin : j.inStore = true) :
    process_image_set env 1 { j with status := .running } =
      ({ j with status := .running, errors := j.errors ++ [.setErr 1] },
       [], []) ∧
    (process_wizard_job env j).1.status = .completed ∧
    (process_wizard_job env j).1.status ≠ .error := by
  refine ⟨?_, process_wizard_final_completed env j hin, ?_⟩
  · unfold process_image_set
    rw [if_pos hp]
    rw [if_pos
      (show ({ j with status := Status.running } : JobState).inStore = true
        from hin)]
  · rw [process_wizard_final_completed env j hin]
    simp

/-- Witness for C5's theorem: the two-video two-set job whose first image set
prologue raises. -/
theorem escaped_item_exception_caught_witness :
    process_image_set prologueFailEnv 1
      { twoVideoTwoSetJob with status := .running } =
      ({ twoVideoTwoSetJob with status := Status.running, errors := twoVideoTwoSetJob.errors ++ [ErrEntry.setErr 1] }, [], []) ∧
    (process_wizard_job prologueFailEnv twoVideoTwoSetJob).1.status =
      .completed ∧
    (process_wizard_job prologueFailEnv twoVideoTwoSetJob).1.status ≠
      .error :=
  escaped_item_exception_caught_at_set_level prologueFailEnv
    twoVideoTwoSetJob rfl rfl

/-- C5 counterexample: with an exception escaping the per-item handling at
image set 1, the job neither transitions to `error` nor stops processing:
both items of image set 2 are still dispatched and the run ends completed. -/
theorem escaped_item_exception_cex :
    (process_wizard_job prologueFailEnv twoVideoTwoSetJob).1.status =
      .completed ∧
    (process_wizard_job prologueFailEnv twoVideoTwoSetJob).1.errors =
      [.setErr 1] ∧
    Ev.dispatch 2 0 ∈ (process_wizard_job prologueFailEnv twoVideoTwoSetJob).2.1 ∧
    Ev.dispatch 2 1 ∈ (process_wizard_job prologueFailEnv twoVideoTwoSetJob).2.1 := by
  refine ⟨by decide, by decide, by decide, by decide⟩

/-! ### Undisturbed runs: exact trace shape -/

/-- No external interference: no cancel call observed, shutdown never set,
no set-level exception. -/
def no_interference (env : Env) : Prop :=
  (∀ s v, env.cancelAt s v = false) ∧ (∀ s v, env.shutdownAt s v = false) ∧
  (∀ s v, env.shutdownInSleep s v = false) ∧ (∀ s, env.prologueRaises s = false)

/-- The events one undisturbed dispatching iteration emits, given the value
`cAfter` of the completed counter after the iteration: always the dispatch;
then, exactly when `cAfter < total`, the `next_post_time` assignment and (for
a positive interval) the sleep. -/
def cleanBlock (T m setNo v cAfter : Nat) : List Ev :=
  Ev.dispatch setNo v ::
    (if cAfter < T then
      Ev.setNextPost setNo v :: (if 0 < m then [Ev.sleep setNo v] else [])
    else [])

/-- The event trace of an undisturbed run of one image set's loop, starting
from completed counter `c`. -/
def cleanTrace (T m setNo : Nat) : Nat → List Nat → List Ev
  | _, [] => []
  | c, v :: rest =>
    cleanBlock T m setNo v (c + 1) ++ cleanTrace T m setNo (c + 1) rest

theorem process_item_clean (env : Env) (setNo v : Nat) (j : JobState)
    (hd : env.outcome setNo v = .ok ∨ env.outcome setNo v = .dispatchFail)
    (hni : no_interference env)
    (hin : j.inStore = true) (hst : j.status ≠ .cancelled) :
    (process_item env setNo v j).2.1 =
      cleanBlock j.totalItems j.intervalMinutes setNo v (j.completed + 1) ∧
    (process_item env setNo v j).2.2 = false ∧
    (process_item env setNo v j).1.completed = j.completed + 1 ∧
    (process_item env setNo v j).1.status = j.status ∧
    (process_item env setNo v j).1.totalItems = j.totalItems ∧
    (process_item env setNo v j).1.intervalMinutes = j.intervalMinutes ∧
    (process_item env setNo v j).1.numVideos = j.numVideos ∧
    (process_item env setNo v j).1.useSecondSet = j.useSecondSet ∧
    (process_item env setNo v j).1.inStore = true := by
  obtain ⟨hca, hsa, hss, hpr⟩ := hni
  by_cases hlt : j.completed + 1 < j.totalItems <;>
    by_cases hm : 0 < j.intervalMinutes <;>
      rcases hd with ho | ho <;>
        refine ⟨?_, ?_, ?_, ?_, ?_, ?_, ?_, ?_, ?_⟩ <;>
          simp [process_item, cleanBlock, hca, hsa, hss, hin, hst, ho, hlt, hm,
            perhaps_cancel_of_not_cancelAt,
            record_dispatch_completed_of_inStore]

theorem run_items_clean (env : Env) (setNo : Nat) (vids : List Nat)
    (j : JobState)
    (hd : ∀ v, env.outcome setNo v = .ok ∨ env.outcome setNo v = .dispatchFail)
    (hni : no_interference env)
    (hin : j.inStore = true) (hst : j.status ≠ .cancelled) :
    (run_items env setNo vids j).2.1 =
      cleanTrace j.totalItems j.intervalMinutes setNo j.completed vids ∧
    (run_items env setNo vids j).1.completed = j.completed + vids.length ∧
    (run_items env setNo vids j).1.status = j.status ∧
    (run_items env setNo vids j).1.totalItems = j.totalItems ∧
    (run_items env setNo vids j).1.intervalMinutes = j.intervalMinutes ∧
    (run_items env setNo vids j).1.numVideos = j.numVideos ∧
    (run_items env setNo vids j).1.useSecondSet = j.useSecondSet ∧
    (run_items env setNo vids j).1.inStore = true := by
  induction vids generalizing j with
  | nil => simp [run_items, cleanTrace, hin]
  | cons v rest ih =>
    rcases hpi : process_item env setNo v j with ⟨j1, evs, ex⟩
    have hc := process_item_clean env setNo v j (hd v) hni hin hst
    rw [hpi] at hc
    dsimp only at hc
    obtain ⟨he, hx, hcc, hstt, htt, hmm, hnn, huu, hii⟩ := hc
    subst hx
    simp only [run_items, hpi]
    obtain ⟨ih1, ih2, ih3, ih4, ih5, ih6, ih7, ih8⟩ :=
      ih j1 hii (by rw [hstt]; exact hst)
    refine ⟨?_, ?_, ?_, ?_, ?_, ?_, ?_, ?_⟩
    · rw [he, ih1, hcc, htt, hmm]
      simp [cleanTrace]
    · rw [ih2, hcc]
      simp
      omega
    · rw [ih3, hstt]
    · rw [ih4, htt]
    · rw [ih5, hmm]
    · rw [ih6, hnn]
    · rw [ih7, huu]
    · exact ih8

theorem process_image_set_clean (env : Env) (setNo : Nat) (j : JobState)
    (hd : ∀ v, env.outcome setNo v = .ok ∨ env.outcome setNo v = .dispatchFail)
    (hni : no_interference env)
    (hin : j.inStore = true) (hst : j.status ≠ .cancelled) :
    (process_image_set env setNo j).2.1 =
      cleanTrace j.totalItems j.intervalMinutes setNo j.completed
        (List.range j.numVideos) ∧
    (process_image_set env setNo j).1.completed =
      j.completed + j.numVideos ∧
    (process_image_set env setNo j).1.status = j.status ∧
    (process_image_set env setNo j).1.totalItems = j.totalItems ∧
    (process_image_set env setNo j).1.intervalMinutes = j.intervalMinutes ∧
    (process_image_set env setNo j).1.numVideos = j.numVideos ∧
    (process_image_set env setNo j).1.useSecondSet = j.useSecondSet ∧
    (process_image_set env setNo j).1.inStore = true := by
  unfold process_image_set
  rw [if_neg (by simp [hni.2.2.2 setNo])]
  have := run_items_clean env setNo (List.range j.numVideos) j hd hni hin hst
  simpa [List.length_range] using this

theorem process_wizard_clean_trace (env : Env) (j0 : JobState)
    (hd : ∀ s v, env.outcome s v = .ok ∨ env.outcome s v = .dispatchFail)
    (hni : no_interference env) (hin : j0.inStore = true) :
    (process_wizard_job env j0).2.1 =
      cleanTrace j0.totalItems j0.intervalMinutes 1 j0.completed
        (List.range j0.numVideos) ++
      (if j0.useSecondSet then
        cleanTrace j0.totalItems j0.intervalMinutes 2
          (j0.completed + j0.numVideos) (List.range j0.numVideos)
      else []) := by
  unfold process_wizard_job
  rw [if_neg (by simp [hin])]
  dsimp only
  rcases h1 : process_image_set env 1 { j0 with status := .running }
    with ⟨j1, evs1, sts1⟩
  have hc1 := process_image_set_clean env 1 { j0 with status := .running }
    (hd 1) hni (by simpa using hin) (by simp)
  rw [h1] at hc1
  dsimp only at hc1
  obtain ⟨he1, hcc1, hst1, htt1, hmm1, hnn1, huu1, hii1⟩ := hc1
  dsimp only
  by_cases hu : j1.useSecondSet = true
  · rw [if_pos hu]
    rcases h2 : process_image_set env 2 j1 with ⟨j2, evs2, sts2⟩
    have hc2 := process_image_set_clean env 2 j1 (hd 2) hni hii1
      (by rw [hst1]; simp)
    rw [h2] at hc2
    dsimp only at hc2
    obtain ⟨he2, hcc2, hst2, htt2, hmm2, hnn2, huu2, hii2⟩ := hc2
    dsimp only
    rw [if_pos (by rw [← huu1]; exact hu)]
    rw [he1, he2, hcc1, htt1, hmm1, hnn1]
  · rw [if_neg hu]
    dsimp only
    rw [if_neg (by rw [← huu1]; exact hu)]
    rw [he1]

def isDispatch : Ev → Bool
  | .dispatch _ _ => true
  | _ => false

theorem cleanBlock_filter_dispatch (T m setNo v c : Nat) :
    (cleanBlock T m setNo v c).filter isDispatch = [Ev.dispatch setNo v] := by
  unfold cleanBlock
  split_ifs <;> simp [isDispatch]

theorem cleanTrace_filter_dispatch (T m setNo : Nat) (vids : List Nat) :
    ∀ c, (cleanTrace T m setNo c vids).filter isDispatch =
      vids.map (Ev.dispatch setNo) := by
  induction vids with
  | nil => intro c; simp [cleanTrace]
  | cons v rest ih =>
    intro c
    simp [cleanTrace, List.filter_append, cleanBlock_filter_dispatch, ih]

theorem cleanTrace_ne_nil (T m setNo c : Nat) (vids : List Nat)
    (h : vids ≠ []) : cleanTrace T m setNo c vids ≠ [] := by
  cases vids with
  | nil => exact absurd rfl h
  | cons v rest => simp [cleanTrace, cleanBlock]

theorem cleanTrace_getLast (T m setNo : Nat) (vids : List Nat) :
    ∀ c v, vids.getLast? = some v → c + vids.length = T →
      (cleanTrace T m setNo c vids).getLast? =
        some (Ev.dispatch setNo v) := by
  induction vids with
  | nil => intro c v h _; simp at h
  | cons w rest ih =>
    intro c v h hT
    cases rest with
    | nil =>
      simp at h
      subst h
      have hnot : ¬ (c + 1 < T) := by simp at hT; omega
      simp [cleanTrace, cleanBlock, hnot]
    | cons w2 rest2 =>
      have hlast : (w2 :: rest2).getLast? = some v := by
        rw [← h, List.getLast?_cons_cons]
      have hstep : cleanTrace T m setNo c (w :: w2 :: rest2) =
          cleanBlock T m setNo w (c + 1) ++
            cleanTrace T m setNo (c + 1) (w2 :: rest2) := rfl
      rw [hstep,
        List.getLast?_append_of_ne_nil _
          (cleanTrace_ne_nil T m setNo (c + 1) _ (by simp))]
      exact ih (c + 1) v hlast (by simp at hT ⊢; omega)

theorem range_getLast (n : Nat) (h : 0 < n) :
    (List.range n).getLast? = some (n - 1) := by
  obtain ⟨k, rfl⟩ : ∃ k, n = k + 1 := ⟨n - 1, by omega⟩
  rw [List.range_succ, List.getLast?_concat]
  simp

/-- Fields of the record `create_wizard_bulk_job` stores. -/
theorem create_wizard_fields (botToken : Bool) (req : WizardRequest)
    (j0 : JobState) (hcreate : create_wizard_bulk_job botToken req = some j0) :
    j0.numVideos = req.numVideos ∧ j0.useSecondSet = req.useSecondImageSet ∧
    j0.intervalMinutes = req.intervalMinutes ∧ j0.completed = 0 ∧
    j0.failed = 0 ∧ j0.status = .pending ∧ j0.inStore = true ∧
    j0.totalItems =
      req.numVideos * (if req.useSecondImageSet then 2 else 1) := by
  unfold create_wizard_bulk_job at hcreate
  split at hcreate
  · exact absurd hcreate (by simp)
  · split at hcreate
    · exact absurd hcreate (by simp)
    · injection hcreate with h
      subst h
      exact ⟨rfl, rfl, rfl, rfl, rfl, rfl, rfl, rfl⟩

/-- C9: every wizard job created with `num_videos = 2` and
`use_second_image_set = True` has exactly 4 total work items
(`total_items = num_videos * 2`), and in an undisturbed run whose items all
reach the dispatch step, the dispatch order is video0/set1, video1/set1,
video0/set2, video1/set2 — image set 1 is processed completely, in video
index order, before image set 2 begins. -/
theorem wizard_two_videos_two_sets_order (env : Env) (botToken : Bool)
    (req : WizardRequest) (j0 : JobState)
    (hcreate : create_wizard_bulk_job botToken req = some j0)
    (hn : req.numVideos = 2) (hs2 : req.useSecondImageSet = true)
    (hd : ∀ s v, env.outcome s v = .ok ∨ env.outcome s v = .dispatchFail)
    (hni : no_interference env) :
    j0.totalItems = 4 ∧
    (process_wizard_job env j0).2.1.filter isDispatch =
      [Ev.dispatch 1 0, Ev.dispatch 1 1, Ev.dispatch 2 0, Ev.dispatch 2 1] := by
  obtain ⟨hnv, hus, _, hc0, _, _, hin, ht⟩ :=
    create_wizard_fields botToken req j0 hcreate
  have ht4 : j0.totalItems = 4 := by rw [ht, hn, hs2]; rfl
  refine ⟨ht4, ?_⟩
  rw [process_wizard_clean_trace env j0 hd hni hin]
  rw [if_pos (by rw [hus]; exact hs2), hnv, hn, hc0]
  rw [List.filter_append, cleanTrace_filter_dispatch, cleanTrace_filter_dispatch]
  decide

/-- Witness for C9: the two-video two-set job from a concrete request, run
without interference. -/
theorem wizard_two_videos_two_sets_order_witness :
    twoVideoTwoSetJob.totalItems = 4 ∧
    (process_wizard_job quietEnv twoVideoTwoSetJob).2.1.filter isDispatch =
      [Ev.dispatch 1 0, Ev.dispatch 1 1, Ev.dispatch 2 0, Ev.dispatch 2 1] :=
  wizard_two_videos_two_sets_order quietEnv true
    ⟨2, "w", "submit_job", ["t1", "t2"], ["a1", "a2"], ["b1", "b2"],
     ["i1", "i2"], "general", true, ["k1", "k2"], "alt", 5⟩
    twoVideoTwoSetJob (by decide) rfl rfl (fun _ _ => Or.inl rfl)
    ⟨fun _ _ => rfl, fun _ _ => rfl, fun _ _ => rfl, fun _ => rfl⟩

/-- First item fails extraction, second succeeds; no interference. -/
def lastItemFailEnv : Env :=
  { quietEnv with outcome := fun _ v => if v = 0 then .extractFail else .ok }

/-- C7 corrected: after an item, the worker sets `next_post_time` exactly when
the completed counter is still below `total_items`, and sleeps exactly when
additionally the interval is positive — the guard of lines 275-296 is
`completed < total_items`, not "not the last item". In runs where every item
reaches the dispatch step and nothing interferes, `completed` reaches
`total_items` on the final item, so the wait and the `next_post_time`
assignment occur only between successive dispatches and never after the final
item: the run's last event is the final dispatch. (When an earlier item fails
extraction, `completed` lags and the wait is applied even after the final
item — see the counterexample.) -/
theorem interval_wait_characterization (env : Env) (botToken : Bool)
    (req : WizardRequest) (j0 : JobState)
    (hcreate : create_wizard_bulk_job botToken req = some j0)
    (hd : ∀ s v, env.outcome s v = .ok ∨ env.outcome s v = .dispatchFail)
    (hni : no_interference env) :
    (0 < j0.numVideos →
      (process_wizard_job env j0).2.1.getLast? =
        some (Ev.dispatch (if j0.useSecondSet then 2 else 1)
          (j0.numVideos - 1))) ∧
    (∀ setNo v (j : JobState), j.inStore = true → j.status ≠ .cancelled →
      ((Ev.sleep setNo v ∈ (process_item env setNo v j).2.1 ↔
         (j.completed + 1 < j.totalItems ∧ 0 < j.intervalMinutes)) ∧
       (Ev.setNextPost setNo v ∈ (process_item env setNo v j).2.1 ↔
         j.completed + 1 < j.totalItems))) := by
  obtain ⟨hnv, hus, _, hc0, _, _, hin, ht⟩ :=
    create_wizard_fields botToken req j0 hcreate
  constructor
  · intro hpos
    rw [process_wizard_clean_trace env j0 hd hni hin]
    by_cases hu : j0.useSecondSet = true
    · rw [if_pos hu, if_pos hu]
      rw [List.getLast?_append_of_ne_nil _
        (cleanTrace_ne_nil _ _ _ _ _ (by simp; omega))]
      apply cleanTrace_getLast
      · exact range_getLast j0.numVideos hpos
      · rw [List.length_range, ht, ← hus, if_pos hu, ← hnv, hc0]
        omega
    · rw [if_neg hu, if_neg hu, List.append_nil]
      apply cleanTrace_getLast
      · exact range_getLast j0.numVideos hpos
      · rw [List.length_range, ht, ← hus, if_neg hu, ← hnv, hc0]
        omega
  · intro setNo v j hjin hjst
    have hc := process_item_clean env setNo v j (hd setNo v) hni hjin hjst
    obtain ⟨he, _⟩ := hc
    rw [he]
    unfold cleanBlock
    constructor
    · constructor
      · intro hmem
        split_ifs at hmem <;> simp_all
      · rintro ⟨h1, h2⟩
        rw [if_pos h1, if_pos h2]
        simp
    · constructor
      · intro hmem
        split_ifs at hmem <;> simp_all
      · intro h1
        rw [if_pos h1]
        simp

/-- Witness for C7's theorem: the undisturbed two-video two-set run ends with
the dispatch of video 1 of set 2, and for a concrete mid-run state the sleep
and `next_post_time` events are present exactly as characterized. -/
theorem interval_wait_characterization_witness :
    (process_wizard_job quietEnv twoVideoTwoSetJob).2.1.getLast? =
      some (Ev.dispatch 2 1) ∧
    (Ev.sleep 1 0 ∈
      (process_item quietEnv 1 0
        { twoVideoJob with status := .running }).2.1 ↔
      (twoVideoJob.completed + 1 < twoVideoJob.totalItems ∧
        0 < twoVideoJob.intervalMinutes)) := by
  have h := interval_wait_characterization quietEnv true
    ⟨2, "w", "submit_job", ["t1", "t2"], ["a1", "a2"], ["b1", "b2"],
     ["i1", "i2"], "general", true, ["k1", "k2"], "alt", 5⟩
    twoVideoTwoSetJob (by decide) (fun _ _ => Or.inl rfl)
    ⟨fun _ _ => rfl, fun _ _ => rfl, fun _ _ => rfl, fun _ => rfl⟩
  exact ⟨h.1 (by decide),
    (h.2 1 0 { twoVideoJob with status := .running } rfl (by decide)).1⟩

/-- C7 counterexample: two items, the first fails extraction, the second (the
final item of the job) dispatches — and after that final dispatch the worker
still assigns `next_post_time` and sleeps, because its guard
`completed < total_items` (1 < 2) holds, `completed` having missed the failed
item. The whole trace is dispatch, next-post assignment, sleep, with the
sleep after the job's final item. -/
theorem sleep_after_final_item_cex :
    (process_wizard_job lastItemFailEnv twoVideoJob).2.1 =
      [Ev.dispatch 1 1, Ev.setNextPost 1 1, Ev.sleep 1 1] ∧
    (process_wizard_job lastItemFailEnv twoVideoJob).1.completed = 1 ∧
    (process_wizard_job lastItemFailEnv twoVideoJob).1.totalItems = 2 := by
  refine ⟨by decide, by decide, by decide⟩

/-! ## Message-link normalization and parsing (lines 332-346) -/

/-- Python `s.startswith(pat)`: `pat` begins `s`. -/
def startswith : List Char → List Char → Bool
  | [], _ => true
  | _ :: _, [] => false
  | p :: ps, c :: cs => p == c && startswith ps cs

/-- Python `pat in s`: `pat` occurs somewhere in `s`. -/
def containsSub (pat : List Char) : List Char → Bool
  | [] => pat.isEmpty
  | c :: cs => startswith pat (c :: cs) || containsSub pat cs

/-- Python `s.replace(pat, repl)`: replace every leftmost, non-overlapping
occurrence (identity for the empty pattern, which the code never uses). -/
def replaceAll (pat repl : List Char) (s : List Char) : List Char :=
  if h : pat = [] then s
  else
    match s with
    | [] => []
    | c :: cs =>
      if startswith pat (c :: cs) = true then
        repl ++ replaceAll pat repl (List.drop pat.length (c :: cs))
      else c :: replaceAll pat repl cs
termination_by s.length
decreasing_by
  · cases pat with
    | nil => exact absurd rfl h
    | cons p ps => simp [List.length_drop]; omega
  · simp

/-- Python `s.strip()` and `s.strip('/')`: remove the selected characters
from both ends. -/
def stripChars (p : Char → Bool) (s : List Char) : List Char :=
  ((s.dropWhile p).reverse.dropWhile p).reverse

/-- Python `s.split('/')`. -/
def splitOnSlash : List Char → List (List Char)
  | [] => [[]]
  | c :: cs =>
    if c == '/' then [] :: splitOnSlash cs
    else
      match splitOnSlash cs with
      | [] => [[c]]
      | h :: t => (c :: h) :: t

/-- `'discordapp.com'`. -/
def dapp : List Char :=
  ['d', 'i', 's', 'c', 'o', 'r', 'd', 'a', 'p', 'p', '.', 'c', 'o', 'm']

/-- `'discord.com'`. -/
def dcom : List Char := ['d', 'i', 's', 'c', 'o', 'r', 'd', '.', 'c', 'o', 'm']

/-- `'discord://'`. -/
def dscheme : List Char := ['d', 'i', 's', 'c', 'o', 'r', 'd', ':', '/', '/']

/-- `'discord://discord'`. -/
def dschemeDiscord : List Char :=
  dscheme ++ ['d', 'i', 's', 'c', 'o', 'r', 'd']

/-- `'https://'`. -/
def httpsSS : List Char := ['h', 't', 't', 'p', 's', ':', '/', '/']

/-- `'https://discord.com'`. -/
def httpsDiscord : List Char := httpsSS ++ dcom

/-- `'https://discord.com/'`. -/
def httpsDiscordSlash : List Char := httpsDiscord ++ ['/']

/-- Lines 332-338 of `_extract_attachments`: replace the `discordapp.com`
host by `discord.com` when present, rewrite the `discord://` scheme forms to
the canonical HTTPS form, then strip surrounding whitespace. -/
def normalize_message_link (link : List Char) : List Char :=
  let l1 := if containsSub dapp link then replaceAll dapp dcom link else link
  let l2 := if startswith dscheme l1 then
      replaceAll dscheme httpsDiscordSlash
        (replaceAll dschemeDiscord httpsDiscord l1)
    else l1
  stripChars Char.isWhitespace l2

/-- Lines 340-346: strip slashes, split on `/`, and take the last two
segments as `(channel_id, message_id)`; an empty segment (or too few
segments) is an invalid-link error. -/
def parse_message_link (link : List Char) :
    Except ExtractErr (List Char × List Char) :=
  let l := normalize_message_link link
  let parts := splitOnSlash (stripChars (fun c => c == '/') l)
  let channel_id :=
    if 2 ≤ parts.length then parts.getD (parts.length - 2) [] else []
  let message_id :=
    if 1 ≤ parts.length then parts.getD (parts.length - 1) [] else []
  if channel_id = [] ∨ message_id = [] then .error .invalidLink
  else .ok (channel_id, message_id)

/-- The path `channels/<guild>/<chan>/<msg>`. -/
def channelsTail (guild chan msg : List Char) : List Char :=
  ['c', 'h', 'a', 'n', 'n', 'e', 'l', 's', '/'] ++ guild ++ ['/'] ++ chan ++
    ['/'] ++ msg

/-- `https://discord.com/channels/<g>/<c>/<m>`. -/
def https_link (guild chan msg : List Char) : List Char :=
  httpsDiscordSlash ++ channelsTail guild chan msg

/-- `https://discordapp.com/channels/<g>/<c>/<m>`. -/
def dapp_link (guild chan msg : List Char) : List Char :=
  httpsSS ++ dapp ++ ['/'] ++ channelsTail guild chan msg

/-- `discord://discord/channels/<g>/<c>/<m>`. -/
def scheme_discord_link (guild chan msg : List Char) : List Char :=
  dschemeDiscord ++ ['/'] ++ channelsTail guild chan msg

/-- `discord://channels/<g>/<c>/<m>`. -/
def scheme_link (guild chan msg : List Char) : List Char :=
  dscheme ++ channelsTail guild chan msg

theorem startswith_append_self (p t : List Char) :
    startswith p (p ++ t) = true := by
  induction p with
  | nil => rfl
  | cons c cs ih => simp [startswith, ih]

theorem startswith_iff (p : List Char) :
    ∀ s, startswith p s = true ↔ ∃ t, s = p ++ t := by
  induction p with
  | nil => intro s; simp [startswith]
  | cons c cs ih =>
    intro s
    cases s with
    | nil => simp [startswith]
    | cons a as =>
      simp only [startswith, Bool.and_eq_true, beq_iff_eq, ih]
      constructor
      · rintro ⟨rfl, t, rfl⟩
        exact ⟨t, rfl⟩
      · rintro ⟨t, ht⟩
        simp only [List.cons_append, List.cons.injEq] at ht
        exact ⟨ht.1.symm, t, ht.2⟩

theorem startswith_mem (p s : List Char) (h : startswith p s = true) :
    ∀ x ∈ p, x ∈ s := by
  obtain ⟨t, rfl⟩ := (startswith_iff p s).mp h
  intro x hx
  exact List.mem_append.mpr (Or.inl hx)

theorem containsSub_cons (pat : List Char) (c : Char) (cs : List Char) :
    containsSub pat (c :: cs) =
      (startswith pat (c :: cs) || containsSub pat cs) := rfl

theorem containsSub_missing (pat s : List Char) (x : Char) (hx : x ∈ pat)
    (hs : x ∉ s) : containsSub pat s = false := by
  induction s with
  | nil =>
    cases pat with
    | nil => exact absurd hx (by simp)
    | cons p ps => rfl
  | cons c cs ih =>
    rw [containsSub_cons]
    have h1 : startswith pat (c :: cs) = false := by
      by_contra hne
      have := startswith_mem pat (c :: cs) (by simpa using hne) x hx
      exact hs this
    rw [h1, ih (fun hmem => hs (List.mem_cons_of_mem c hmem))]
    rfl

theorem containsSub_head (pat t : List Char) :
    containsSub pat (pat ++ t) = true := by
  cases pat with
  | nil => cases t <;> simp [containsSub, startswith]
  | cons p ps =>
    show containsSub (p :: ps) (p :: (ps ++ t)) = true
    rw [containsSub_cons]
    have h := startswith_append_self (p :: ps) t
    rw [show ((p :: ps) ++ t : List Char) = p :: (ps ++ t) from rfl] at h
    rw [h]
    rfl

theorem containsSub_extend (pat pre rest : List Char)
    (h : containsSub pat rest = true) :
    containsSub pat (pre ++ rest) = true := by
  induction pre with
  | nil => simpa
  | cons a pre' ih => simp [containsSub_cons, ih]

/-- Whether the two-character sequence `a b` occurs (adjacent) in `s`. -/
def hasPair (a b : Char) : List Char → Bool
  | [] => false
  | [_] => false
  | x :: y :: t => (x == a && y == b) || hasPair a b (y :: t)

theorem hasPair_tail (a b c : Char) (cs : List Char)
    (h : hasPair a b (c :: cs) = false) : hasPair a b cs = false := by
  cases cs with
  | nil => rfl
  | cons d ds =>
    rw [show hasPair a b (c :: d :: ds) =
      ((c == a && d == b) || hasPair a b (d :: ds)) from rfl] at h
    exact (Bool.or_eq_false_iff.mp h).2

theorem hasPair_append_left (a b : Char) (xs ys : List Char)
    (h : hasPair a b xs = true) : hasPair a b (xs ++ ys) = true := by
  induction xs with
  | nil => simp [hasPair] at h
  | cons x xs' ih =>
    cases xs' with
    | nil => simp [hasPair] at h
    | cons y t =>
      have h' : (x == a && y == b) = true ∨ hasPair a b (y :: t) = true :=
        Bool.or_eq_true_iff.mp h
      show hasPair a b (x :: y :: (t ++ ys)) = true
      rw [show hasPair a b (x :: y :: (t ++ ys)) =
        ((x == a && y == b) || hasPair a b (y :: (t ++ ys))) from rfl]
      rcases h' with h1 | h1
      · rw [h1]
        rfl
      · have h3 : hasPair a b (y :: (t ++ ys)) = true := ih h1
        rw [h3]
        simp

theorem hasPair_of_startswith (a b : Char) (p s : List Char)
    (hp : hasPair a b p = true) (hs : startswith p s = true) :
    hasPair a b s = true := by
  obtain ⟨t, rfl⟩ := (startswith_iff p s).mp hs
  exact hasPair_append_left a b p t hp

theorem containsSub_no_pair (a b : Char) (pat s : List Char)
    (hp : hasPair a b pat = true) (hs : hasPair a b s = false) :
    containsSub pat s = false := by
  induction s with
  | nil =>
    cases pat with
    | nil => simp [hasPair] at hp
    | cons p ps => rfl
  | cons c cs ih =>
    rw [containsSub_cons]
    have h1 : startswith pat (c :: cs) = false := by
      by_contra hne
      have := hasPair_of_startswith a b pat (c :: cs) hp (by simpa using hne)
      rw [this] at hs
      exact absurd hs (by simp)
    rw [h1, ih (hasPair_tail a b c cs hs)]
    rfl

theorem hasPair_left_missing (a b : Char) (s : List Char) (h : a ∉ s) :
    hasPair a b s = false := by
  induction s with
  | nil => rfl
  | cons c cs ih =>
    cases cs with
    | nil => rfl
    | cons d ds =>
      rw [show hasPair a b (c :: d :: ds) =
        ((c == a && d == b) || hasPair a b (d :: ds)) from rfl]
      have hc : (c == a) = false := by
        simp only [beq_eq_false_iff_ne, ne_eq]
        intro hh
        exact h (hh ▸ List.mem_cons_self c (d :: ds))
      rw [hc, ih (fun hm => h (List.mem_cons_of_mem c hm))]
      rfl

theorem hasPair_right_missing (a b : Char) (s : List Char) (h : b ∉ s) :
    hasPair a b s = false := by
  induction s with
  | nil => rfl
  | cons c cs ih =>
    cases cs with
    | nil => rfl
    | cons d ds =>
      rw [show hasPair a b (c :: d :: ds) =
        ((c == a && d == b) || hasPair a b (d :: ds)) from rfl]
      have hd : (d == b) = false := by
        simp only [beq_eq_false_iff_ne, ne_eq]
        intro hh
        exact h (hh ▸ List.mem_cons_of_mem c (List.mem_cons_self d ds))
      rw [hd, ih (fun hm => h (List.mem_cons_of_mem c hm))]
      simp

theorem hasPair_append_false (a b : Char) (ys : List Char)
    (hy : hasPair a b ys = false) :
    ∀ xs, hasPair a b xs = false →
      (∀ x y, xs.getLast? = some x → ys.head? = some y → ¬ (x = a ∧ y = b)) →
      hasPair a b (xs ++ ys) = false := by
  intro xs
  induction xs with
  | nil => intro _ _; simpa
  | cons c cs ih =>
    intro hx hb
    cases cs with
    | nil =>
      cases ys with
      | nil => rfl
      | cons d ds =>
        rw [show (([c] ++ (d :: ds)) : List Char) = c :: d :: ds from rfl]
        rw [show hasPair a b (c :: d :: ds) =
          ((c == a && d == b) || hasPair a b (d :: ds)) from rfl]
        have hcd : (c == a && d == b) = false := by
          by_cases hca : c = a
          · have : ¬ (c = a ∧ d = b) := hb c d rfl rfl
            have hdb : d ≠ b := fun hdb => this ⟨hca, hdb⟩
            simp [hdb]
          · simp [hca]
        rw [hcd, hy]
        rfl
    | cons e es =>
      have hx1 : (c == a && e == b) = false ∧ hasPair a b (e :: es) = false := by
        rw [show hasPair a b (c :: e :: es) =
          ((c == a && e == b) || hasPair a b (e :: es)) from rfl] at hx
        exact Bool.or_eq_false_iff.mp hx
      have hb' : ∀ x y, (e :: es).getLast? = some x → ys.head? = some y →
          ¬ (x = a ∧ y = b) := by
        intro x y hx' hy'
        exact hb x y (by rw [List.getLast?_cons_cons]; exact hx') hy'
      have := ih hx1.2 hb'
      rw [show ((c :: e :: es) ++ ys : List Char) = c :: e :: (es ++ ys)
        from rfl]
      rw [show hasPair a b (c :: e :: (es ++ ys)) =
        ((c == a && e == b) || hasPair a b (e :: (es ++ ys))) from rfl]
      rw [show ((e :: es) ++ ys : List Char) = e :: (es ++ ys) from rfl] at this
      rw [hx1.1, this]
      rfl

theorem replaceAll_empty_pat (repl s : List Char) :
    replaceAll [] repl s = s := by
  unfold replaceAll
  rw [dif_pos rfl]

theorem replaceAll_nil (pat repl : List Char) :
    replaceAll pat repl [] = [] := by
  unfold replaceAll
  split
  · rfl
  · rfl

theorem replaceAll_cons_pos (pat repl : List Char) (c : Char) (cs : List Char)
    (hp : pat ≠ []) (hs : startswith pat (c :: cs) = true) :
    replaceAll pat repl (c :: cs) =
      repl ++ replaceAll pat repl (List.drop pat.length (c :: cs)) := by
  conv_lhs => rw [replaceAll]
  rw [dif_neg hp]
  simp only [hs, if_true]

theorem replaceAll_cons_neg (pat repl : List Char) (c : Char) (cs : List Char)
    (hp : pat ≠ []) (hs : startswith pat (c :: cs) = false) :
    replaceAll pat repl (c :: cs) = c :: replaceAll pat repl cs := by
  conv_lhs => rw [replaceAll]
  rw [dif_neg hp]
  simp only [hs]
  rfl

theorem replaceAll_head (pat repl suf : List Char) (hp : pat ≠ []) :
    replaceAll pat repl (pat ++ suf) =
      repl ++ replaceAll pat repl suf := by
  cases pat with
  | nil => exact absurd rfl hp
  | cons p ps =>
    rw [show ((p :: ps) ++ suf : List Char) = p :: (ps ++ suf) from rfl]
    rw [replaceAll_cons_pos (p :: ps) repl p (ps ++ suf) hp
      (by have := startswith_append_self (p :: ps) suf; simpa using this)]
    congr 1
    rw [show (p :: (ps ++ suf) : List Char) = (p :: ps) ++ suf from rfl]
    rw [List.drop_left]

theorem replaceAll_not_contains (pat repl s : List Char)
    (h : containsSub pat s = false) : replaceAll pat repl s = s := by
  by_cases hp : pat = []
  · subst hp
    exact replaceAll_empty_pat repl s
  · induction s with
    | nil => exact replaceAll_nil pat repl
    | cons c cs ih =>
      rw [containsSub_cons] at h
      obtain ⟨h1, h2⟩ := Bool.or_eq_false_iff.mp h
      rw [replaceAll_cons_neg pat repl c cs hp h1, ih h2]

theorem replaceAll_skip (p : Char) (ps repl : List Char) :
    ∀ pre rest : List Char, p ∉ pre →
      replaceAll (p :: ps) repl (pre ++ rest) =
        pre ++ replaceAll (p :: ps) repl rest := by
  intro pre
  induction pre with
  | nil => intro rest _; rfl
  | cons a pre' ih =>
    intro rest hnp
    have hne : p ≠ a := by
      intro hh
      exact hnp (hh ▸ List.mem_cons_self a pre')
    rw [show ((a :: pre') ++ rest : List Char) = a :: (pre' ++ rest) from rfl]
    rw [replaceAll_cons_neg (p :: ps) repl a (pre' ++ rest) (by simp)
      (by simp [startswith, hne])]
    rw [ih rest (fun hm => hnp (List.mem_cons_of_mem a hm))]
    rfl

theorem dropWhile_id (p : Char → Bool) (s : List Char)
    (h : ∀ x, s.head? = some x → p x = false) : s.dropWhile p = s := by
  cases s with
  | nil => rfl
  | cons c cs =>
    rw [List.dropWhile_cons, h c rfl]
    simp

theorem stripChars_id (p : Char → Bool) (s : List Char)
    (hh : ∀ x, s.head? = some x → p x = false)
    (hl : ∀ x, s.getLast? = some x → p x = false) : stripChars p s = s := by
  unfold stripChars
  rw [dropWhile_id p s hh]
  rw [dropWhile_id p s.reverse (by
    intro x hx
    rw [List.head?_reverse] at hx
    exact hl x hx)]
  exact List.reverse_reverse s

theorem splitOnSlash_slash (ys : List Char) :
    splitOnSlash ('/' :: ys) = [] :: splitOnSlash ys := by
  rw [splitOnSlash]
  simp

theorem splitOnSlash_ne_nil (s : List Char) : splitOnSlash s ≠ [] := by
  cases s with
  | nil => simp [splitOnSlash]
  | cons c cs =>
    rw [splitOnSlash]
    split
    · simp
    · split <;> simp

theorem splitOnSlash_field (ys : List Char) :
    ∀ xs : List Char, '/' ∉ xs →
      splitOnSlash (xs ++ '/' :: ys) = xs :: splitOnSlash ys := by
  intro xs
  induction xs with
  | nil => intro _; exact splitOnSlash_slash ys
  | cons a xs' ih =>
    intro hna
    have hne : (a == '/') = false := by
      simp only [beq_eq_false_iff_ne, ne_eq]
      intro hh
      exact hna (hh ▸ List.mem_cons_self a xs')
    rw [show ((a :: xs') ++ '/' :: ys : List Char) = a :: (xs' ++ '/' :: ys)
      from rfl]
    rw [splitOnSlash, hne]
    simp only [Bool.false_eq_true, if_false]
    rw [ih (fun hm => hna (List.mem_cons_of_mem a hm))]

theorem splitOnSlash_single (xs : List Char) (h : '/' ∉ xs) :
    splitOnSlash xs = [xs] := by
  induction xs with
  | nil => rfl
  | cons a xs' ih =>
    have hne : (a == '/') = false := by
      simp only [beq_eq_false_iff_ne, ne_eq]
      intro hh
      exact h (hh ▸ List.mem_cons_self a xs')
    rw [splitOnSlash, hne]
    simp only [Bool.false_eq_true, if_false]
    rw [ih (fun hm => h (List.mem_cons_of_mem a hm))]

theorem digit_facts (c : Char) (h : c.isDigit = true) :
    c ≠ 'p' ∧ c ≠ 'd' ∧ c ≠ ':' ∧ c ≠ '/' ∧ c.isWhitespace = false := by
  refine ⟨?_, ?_, ?_, ?_, ?_⟩
  · intro hh; subst hh; exact absurd h (by decide)
  · intro hh; subst hh; exact absurd h (by decide)
  · intro hh; subst hh; exact absurd h (by decide)
  · intro hh; subst hh; exact absurd h (by decide)
  · cases hb : c.isWhitespace
    · rfl
    · exfalso
      simp only [Char.isWhitespace, Bool.or_eq_true, decide_eq_true_eq] at hb
      rcases hb with ((hh | hh) | hh) | hh <;> (subst hh; exact absurd h (by decide))

theorem startswith_append_of_le (p : List Char) :
    ∀ xs ys : List Char, p.length ≤ xs.length →
      startswith p (xs ++ ys) = startswith p xs := by
  induction p with
  | nil => intro xs ys _; simp [startswith]
  | cons a p' ih =>
    intro xs ys h
    cases xs with
    | nil => simp at h
    | cons x xs' =>
      show startswith (a :: p') (x :: (xs' ++ ys)) =
        startswith (a :: p') (x :: xs')
      simp only [startswith]
      rw [ih xs' ys (by simpa using h)]

/-- `containsSub 'discordapp.com'` is false on the canonical https form
(host `discord.com`), for a path tail free of `p` characters. -/
theorem no_dapp_in_https (T : List Char) (hp : 'p' ∉ T) :
    containsSub dapp (httpsDiscordSlash ++ T) = false := by
  apply containsSub_no_pair 'p' 'p'
  · decide
  · apply hasPair_append_false 'p' 'p' T (hasPair_left_missing _ _ _ hp)
    · decide
    · intro x y hx _ hxy
      rw [show httpsDiscordSlash.getLast? = some '/' from by decide] at hx
      cases hx
      exact absurd hxy.1 (by decide)

theorem no_scheme_in_https (T : List Char) :
    startswith dscheme (httpsDiscordSlash ++ T) = false := by
  rw [startswith_append_of_le dscheme httpsDiscordSlash T (by decide)]
  decide

theorem strip_ws_https (T : List Char) (hT : T ≠ [])
    (hw : ∀ x, T.getLast? = some x → x.isWhitespace = false) :
    stripChars Char.isWhitespace (httpsDiscordSlash ++ T) =
      httpsDiscordSlash ++ T := by
  apply stripChars_id
  · intro x hx
    rw [show (httpsDiscordSlash ++ T).head? = some 'h' from rfl] at hx
    cases hx
    decide
  · intro x hx
    rw [List.getLast?_append_of_ne_nil _ hT] at hx
    exact hw x hx

/-- Form 1: the canonical https link normalizes to itself. -/
theorem normalize_https (T : List Char) (hp : 'p' ∉ T) (hT : T ≠ [])
    (hw : ∀ x, T.getLast? = some x → x.isWhitespace = false) :
    normalize_message_link (httpsDiscordSlash ++ T) =
      httpsDiscordSlash ++ T := by
  unfold normalize_message_link
  rw [if_neg (by rw [no_dapp_in_https T hp]; simp)]
  dsimp only
  rw [if_neg (by rw [no_scheme_in_https T]; simp)]
  exact strip_ws_https T hT hw

/-- `'discordapp.com'` without its first character. -/
def dappT : List Char :=
  ['i', 's', 'c', 'o', 'r', 'd', 'a', 'p', 'p', '.', 'c', 'o', 'm']

/-- Form 2: the `discordapp.com` host is rewritten to `discord.com`. -/
theorem normalize_dapp (T : List Char) (hp : 'p' ∉ T) (hT : T ≠ [])
    (hw : ∀ x, T.getLast? = some x → x.isWhitespace = false) :
    normalize_message_link (httpsSS ++ dapp ++ ['/'] ++ T) =
      httpsDiscordSlash ++ T := by
  have hassoc : httpsSS ++ dapp ++ ['/'] ++ T =
      httpsSS ++ (dapp ++ (['/'] ++ T)) := by
    simp [List.append_assoc]
  have hcontains : containsSub dapp (httpsSS ++ dapp ++ ['/'] ++ T) = true := by
    rw [hassoc]
    exact containsSub_extend dapp httpsSS _ (containsSub_head dapp _)
  have hrepl : replaceAll dapp dcom (httpsSS ++ dapp ++ ['/'] ++ T) =
      httpsDiscordSlash ++ T := by
    rw [hassoc]
    rw [show (dapp : List Char) = 'd' :: dappT from rfl]
    rw [replaceAll_skip 'd' dappT dcom httpsSS _ (by decide)]
    rw [replaceAll_head ('d' :: dappT) dcom (['/'] ++ T) (by simp)]
    rw [replaceAll_not_contains _ _ _ (containsSub_missing _ _ 'p' (by decide)
      (by
        simp only [List.mem_append]
        rintro (h1 | h2)
        · exact absurd h1 (by decide)
        · exact hp h2))]
    simp [httpsDiscordSlash, httpsDiscord, List.append_assoc]
  unfold normalize_message_link
  rw [if_pos hcontains]
  dsimp only
  rw [hrepl]
  rw [if_neg (by rw [no_scheme_in_https T]; simp)]
  exact strip_ws_https T hT hw

/-- Form 3: `discord://discord/...` becomes the canonical https form. -/
theorem normalize_scheme_discord (T : List Char) (hp : 'p' ∉ T)
    (hd : 'd' ∉ T) (hc : ':' ∉ T) (hT : T ≠ [])
    (hw : ∀ x, T.getLast? = some x → x.isWhitespace = false) :
    normalize_message_link (dschemeDiscord ++ ['/'] ++ T) =
      httpsDiscordSlash ++ T := by
  have hassoc : dschemeDiscord ++ ['/'] ++ T =
      dschemeDiscord ++ (['/'] ++ T) := by
    simp [List.append_assoc]
  have hnd : containsSub dapp (dschemeDiscord ++ ['/'] ++ T) = false := by
    apply containsSub_missing _ _ 'p' (by decide)
    intro hmem
    rcases List.mem_append.mp hmem with h1 | h1
    · rcases List.mem_append.mp h1 with h2 | h2
      · exact absurd h2 (by decide)
      · exact absurd h2 (by decide)
    · exact hp h1
  have hsw : startswith dscheme (dschemeDiscord ++ ['/'] ++ T) = true := by
    rw [hassoc]
    rw [show (dschemeDiscord : List Char) =
      dscheme ++ ['d', 'i', 's', 'c', 'o', 'r', 'd'] from rfl]
    rw [List.append_assoc]
    exact startswith_append_self dscheme _
  have hrepl1 : replaceAll dschemeDiscord httpsDiscord
      (dschemeDiscord ++ ['/'] ++ T) = httpsDiscord ++ (['/'] ++ T) := by
    rw [hassoc]
    rw [replaceAll_head dschemeDiscord httpsDiscord (['/'] ++ T) (by decide)]
    rw [replaceAll_not_contains _ _ _ (containsSub_missing _ _ ':' (by decide)
      (by
        simp only [List.mem_append]
        rintro (h1 | h2)
        · exact absurd h1 (by decide)
        · exact hc h2))]
  have hrepl2 : replaceAll dscheme httpsDiscordSlash
      (httpsDiscord ++ (['/'] ++ T)) = httpsDiscord ++ (['/'] ++ T) := by
    apply replaceAll_not_contains
    apply containsSub_no_pair 'd' ':' _ _ (by decide)
    apply hasPair_append_false 'd' ':' (['/'] ++ T) ?_ httpsDiscord (by decide) ?_
    · apply hasPair_right_missing
      simp only [List.mem_append]
      rintro (h1 | h2)
      · exact absurd h1 (by decide)
      · exact hc h2
    · intro x y hx _ hxy
      rw [show httpsDiscord.getLast? = some 'm' from by decide] at hx
      cases hx
      exact absurd hxy.1 (by decide)
  unfold normalize_message_link
  rw [if_neg (by rw [hnd]; simp)]
  dsimp only
  rw [if_pos hsw]
  rw [hrepl1, hrepl2]
  rw [show httpsDiscord ++ (['/'] ++ T) = httpsDiscordSlash ++ T from by
    simp [httpsDiscordSlash, List.append_assoc]]
  exact strip_ws_https T hT hw

/-- Form 4: `discord://...` becomes the canonical https form. -/
theorem normalize_scheme (T : List Char) (hp : 'p' ∉ T) (hd : 'd' ∉ T)
    (hc : ':' ∉ T) (hT : T ≠ [])
    (hw : ∀ x, T.getLast? = some x → x.isWhitespace = false) :
    normalize_message_link (dscheme ++ T) = httpsDiscordSlash ++ T := by
  have hnd : containsSub dapp (dscheme ++ T) = false := by
    apply containsSub_missing _ _ 'p' (by decide)
    intro hmem
    rcases List.mem_append.mp hmem with h1 | h1
    · exact absurd h1 (by decide)
    · exact hp h1
  have hrepl1 : replaceAll dschemeDiscord httpsDiscord (dscheme ++ T) =
      dscheme ++ T := by
    apply replaceAll_not_contains
    apply containsSub_no_pair '/' 'd' _ _ (by decide)
    apply hasPair_append_false '/' 'd' T (hasPair_right_missing _ _ _ hd)
      dscheme (by decide)
    intro x y _ hy hxy
    exact hd (hxy.2 ▸ List.mem_of_mem_head? hy)
  have hrepl2 : replaceAll dscheme httpsDiscordSlash (dscheme ++ T) =
      httpsDiscordSlash ++ T := by
    rw [replaceAll_head dscheme httpsDiscordSlash T (by decide)]
    rw [replaceAll_not_contains _ _ _
      (containsSub_missing _ _ ':' (by decide) hc)]
  unfold normalize_message_link
  rw [if_neg (by rw [hnd]; simp)]
  dsimp only
  rw [if_pos (startswith_append_self dscheme T)]
  rw [hrepl1, hrepl2]
  exact strip_ws_https T hT hw

theorem channelsTail_ne_nil (g c m : List Char) : channelsTail g c m ≠ [] := by
  unfold channelsTail
  simp

theorem channelsTail_getLast (g c m : List Char) (hm : m ≠ []) :
    (channelsTail g c m).getLast? = m.getLast? := by
  unfold channelsTail
  rw [List.getLast?_append_of_ne_nil _ hm]

/-- The side conditions the normalization lemmas need, for a
`channels/<g>/<c>/<m>` tail with numeric identifiers. -/
theorem channelsTail_conditions (g c m : List Char)
    (hg : ∀ x ∈ g, x.isDigit = true) (hc : ∀ x ∈ c, x.isDigit = true)
    (hm : ∀ x ∈ m, x.isDigit = true) (hmne : m ≠ []) :
    'p' ∉ channelsTail g c m ∧ 'd' ∉ channelsTail g c m ∧
    ':' ∉ channelsTail g c m ∧ channelsTail g c m ≠ [] ∧
    (∀ x, (channelsTail g c m).getLast? = some x →
      x.isWhitespace = false) := by
  have hmem : ∀ y : Char, y ∈ channelsTail g c m →
      y ∈ (['c', 'h', 'a', 'n', 'n', 'e', 'l', 's', '/', '/'] : List Char) ∨
      y.isDigit = true := by
    intro y hy
    unfold channelsTail at hy
    rcases List.mem_append.mp hy with h1 | h1
    · rcases List.mem_append.mp h1 with h2 | h2
      · rcases List.mem_append.mp h2 with h3 | h3
        · rcases List.mem_append.mp h3 with h4 | h4
          · rcases List.mem_append.mp h4 with h5 | h5
            · exact Or.inl (by
                simp only [List.mem_cons, List.not_mem_nil, or_false] at h5 ⊢
                tauto)
            · exact Or.inr (hg y h5)
          · exact Or.inl (by
              simp only [List.mem_cons, List.not_mem_nil, or_false] at h4 ⊢
              tauto)
        · exact Or.inr (hc y h3)
      · exact Or.inl (by
          simp only [List.mem_cons, List.not_mem_nil, or_false] at h2 ⊢
          tauto)
    · exact Or.inr (hm y h1)
  refine ⟨?_, ?_, ?_, channelsTail_ne_nil g c m, ?_⟩
  · intro hmem'
    rcases hmem 'p' hmem' with h | h
    · exact absurd h (by decide)
    · exact absurd h (by decide)
  · intro hmem'
    rcases hmem 'd' hmem' with h | h
    · exact absurd h (by decide)
    · exact absurd h (by decide)
  · intro hmem'
    rcases hmem ':' hmem' with h | h
    · exact absurd h (by decide)
    · exact absurd h (by decide)
  · intro x hx
    rw [channelsTail_getLast g c m hmne] at hx
    have hxm : x ∈ m := by
      cases m with
      | nil => simp at hx
      | cons a t =>
        have : x = (a :: t).getLast (by simp) := by
          rw [List.getLast?_eq_getLast] at hx
          exact (Option.some.inj hx).symm
        rw [this]
        exact List.getLast_mem _
    exact (digit_facts x (hm x hxm)).2.2.2.2

theorem parse_of_normalized (link g c m : List Char)
    (hnorm : normalize_message_link link =
      httpsDiscordSlash ++ channelsTail g c m)
    (hgs : '/' ∉ g) (hcs : '/' ∉ c) (hms : '/' ∉ m)
    (hcne : c ≠ []) (hmne : m ≠ [])
    (hml : ∀ x, m.getLast? = some x → (x == '/') = false) :
    parse_message_link link = .ok (c, m) := by
  unfold parse_message_link
  dsimp only
  rw [hnorm]
  have hstrip : stripChars (fun x => x == '/')
      (httpsDiscordSlash ++ channelsTail g c m) =
      httpsDiscordSlash ++ channelsTail g c m := by
    apply stripChars_id
    · intro x hx
      rw [show (httpsDiscordSlash ++ channelsTail g c m).head? = some 'h'
        from rfl] at hx
      cases hx
      decide
    · intro x hx
      rw [List.getLast?_append_of_ne_nil _ (channelsTail_ne_nil g c m),
        channelsTail_getLast g c m hmne] at hx
      exact hml x hx
  rw [hstrip]
  have hdecomp : httpsDiscordSlash ++ channelsTail g c m =
      ['h', 't', 't', 'p', 's', ':'] ++ '/' :: ('/' :: (dcom ++ '/' ::
        (['c', 'h', 'a', 'n', 'n', 'e', 'l', 's'] ++ '/' ::
          (g ++ '/' :: (c ++ '/' :: m))))) := by
    simp [httpsDiscordSlash, httpsDiscord, httpsSS, dcom, channelsTail]
  rw [hdecomp]
  rw [splitOnSlash_field _ _ (by decide)]
  rw [splitOnSlash_slash]
  rw [splitOnSlash_field _ _ (by decide)]
  rw [splitOnSlash_field _ _ (by decide)]
  rw [splitOnSlash_field _ _ hgs]
  rw [splitOnSlash_field _ _ hcs]
  rw [splitOnSlash_single m hms]
  simp [List.getD, hcne, hmne]

/-- C8: the four equivalent textual forms of a message reference
(`https://discord.com/...`, `https://discordapp.com/...`,
`discord://discord/...`, `discord://...`) denoting the same channel/message
pair are normalized and parsed by `_extract_attachments` to the same
`(channel_id, message_id)` pair — all forms are treated identically. -/
theorem reference_forms_treated_identically (guild chan msg : List Char)
    (hg : ∀ x ∈ guild, x.isDigit = true)
    (hc : ∀ x ∈ chan, x.isDigit = true)
    (hm : ∀ x ∈ msg, x.isDigit = true)
    (hcne : chan ≠ []) (hmne : msg ≠ []) :
    parse_message_link (https_link guild chan msg) = .ok (chan, msg) ∧
    parse_message_link (dapp_link guild chan msg) = .ok (chan, msg) ∧
    parse_message_link (scheme_discord_link guild chan msg) =
      .ok (chan, msg) ∧
    parse_message_link (scheme_link guild chan msg) = .ok (chan, msg) := by
  obtain ⟨hp, hd, hcc, hTne, hw⟩ :=
    channelsTail_conditions guild chan msg hg hc hm hmne
  have hgs : '/' ∉ guild :=
    fun hmem => (digit_facts _ (hg _ hmem)).2.2.2.1 rfl
  have hcs : '/' ∉ chan :=
    fun hmem => (digit_facts _ (hc _ hmem)).2.2.2.1 rfl
  have hms : '/' ∉ msg :=
    fun hmem => (digit_facts _ (hm _ hmem)).2.2.2.1 rfl
  have hml : ∀ x, msg.getLast? = some x → (x == '/') = false := by
    intro x hx
    have hxm : x ∈ msg := List.mem_of_mem_getLast? hx
    simp only [beq_eq_false_iff_ne, ne_eq]
    exact (digit_facts _ (hm _ hxm)).2.2.2.1
  refine ⟨?_, ?_, ?_, ?_⟩
  · exact parse_of_normalized _ guild chan msg
      (normalize_https _ hp hTne hw) hgs hcs hms hcne hmne hml
  · exact parse_of_normalized _ guild chan msg
      (normalize_dapp _ hp hTne hw) hgs hcs hms hcne hmne hml
  · exact parse_of_normalized _ guild chan msg
      (normalize_scheme_discord _ hp hd hcc hTne hw) hgs hcs hms hcne hmne hml
  · exact parse_of_normalized _ guild chan msg
      (normalize_scheme _ hp hd hcc hTne hw) hgs hcs hms hcne hmne hml

/-- Witness for C8 at the concrete channel/message pair (12, 345) in guild
9: all four textual forms parse to the same pair. -/
theorem reference_forms_treated_identically_witness :
    parse_message_link (https_link ['9'] ['1', '2'] ['3', '4', '5']) =
      .ok (['1', '2'], ['3', '4', '5']) ∧
    parse_message_link (dapp_link ['9'] ['1', '2'] ['3', '4', '5']) =
      .ok (['1', '2'], ['3', '4', '5']) ∧
    parse_message_link
        (scheme_discord_link ['9'] ['1', '2'] ['3', '4', '5']) =
      .ok (['1', '2'], ['3', '4', '5']) ∧
    parse_message_link (scheme_link ['9'] ['1', '2'] ['3', '4', '5']) =
      .ok (['1', '2'], ['3', '4', '5']) :=
  reference_forms_treated_identically ['9'] ['1', '2'] ['3', '4', '5']
    (by decide) (by decide) (by decide) (by decide) (by decide)
